import Mathlib

/-!
Shallow embedding of the WhatsApp-transcript-to-dialogue pipeline implemented in
`src/whatsapp_to_json.py`, together with proofs about the claims of the
specification.  Every definition below is translated from the Python source;
comments cite the function (and, where helpful, the line) it embeds.

Modelling conventions:
* Python `datetime` values flowing through the pipeline have minute precision
  (they come from `parse_whatsapp_line`), so in the pipeline stages a timestamp
  is represented by an integer number of minutes; the Python expression
  `(t2 - t1).total_seconds() / 60` is exactly `t2 - t1` in this representation.
* Python `None`-able strings become `Option String`; Python truthiness of a
  string option (`elif media_replacement:`) is `pyTruthy`.
* The nondeterministic `random.shuffle` of `fit_to_character_limit` is
  modelled by passing the shuffled list as an explicit argument `shuffled`;
  theorems quantify over it.
* Python `str.strip()` / regex `\s` strip Unicode whitespace; the embedding
  uses the ASCII whitespace set, which is faithful for all inputs considered
  in the theorems below.
-/

namespace WhatsappToJson

/-- ASCII part of Python's whitespace set (`str.strip`, regex `\s`):
space, tab, newline, carriage return, vertical tab, form feed. -/
def pySpace (c : Char) : Bool :=
  c == ' ' || c == '\t' || c == '\n' || c == '\r' ||
  c == Char.ofNat 11 || c == Char.ofNat 12

/-- Python `str.strip()` on a character list: drop leading and trailing
whitespace. -/
def pyStripList (l : List Char) : List Char :=
  ((l.dropWhile pySpace).reverse.dropWhile pySpace).reverse

/-- Python `str.strip()`. -/
def pyStrip (s : String) : String := ⟨pyStripList s.data⟩

/-- Does `pat` occur at the head of the list? (used for Python's `in`). -/
def listStarts : List Char → List Char → Bool
  | [], _ => true
  | _ :: _, [] => false
  | p :: ps, c :: cs => p == c && listStarts ps cs

/-- Does `pat` occur anywhere in the list? (Python's `pat in s`). -/
def listContainsSub (pat : List Char) : List Char → Bool
  | [] => pat.isEmpty
  | c :: cs => listStarts pat (c :: cs) || listContainsSub pat cs

/-- Python's substring test `pat in s`. -/
def containsSubstr (pat s : String) : Bool := listContainsSub pat.data s.data

/-- The fixed media placeholder marker of `group_by_time_gap` (line 90). -/
def mediaMarker : String := "<Media omitted>"

/-- The role token the Role Mapper assigns to `user_name`
(`convert_to_json_format`, line 162). -/
def userTok : String := "\x7b\x7brandom_user_1\x7d\x7d"

/-- The role token the Role Mapper assigns to `char_name`
(`convert_to_json_format`, line 165). -/
def charTok : String := "\x7b\x7bchar\x7d\x7d"

/-- Character class of the URL regex in `contains_link` (line 71):
the union `[a-zA-Z] | [0-9] | [$-_@.&+] | [!*\(\),] | %XX` collapses to
codepoints 97..122, 36..95 and 33 (every other listed character lies in the
`$`..`_` range 36..95, as does `%`). -/
def urlChar (c : Char) : Bool :=
  let n := c.toNat
  (Nat.ble 97 n && Nat.ble n 122) || (Nat.ble 36 n && Nat.ble n 95) || n == 33

/-- One attempted match of the URL regex `http[s]?://(...)+` at the head of
the list: the literal `http`, an optional `s` (greedy, with the regex's
backtracking collapsing to this ordered match), `://`, then at least one
class character. -/
def linkAt (l : List Char) : Bool :=
  match l with
  | 'h' :: 't' :: 't' :: 'p' :: rest =>
    (match rest with
     | 's' :: ':' :: '/' :: '/' :: c :: _ => urlChar c
     | ':' :: '/' :: '/' :: c :: _ => urlChar c
     | _ => false)
  | _ => false

/-- `re.search`: try the match at every starting position. -/
def linkSearch : List Char → Bool
  | [] => false
  | c :: cs => linkAt (c :: cs) || linkSearch cs

/-- `contains_link` (lines 67-72). -/
def contains_link (message : String) : Bool := linkSearch message.data

/-- ASCII decimal digit (regex `\d` on the inputs considered here). -/
def isDigitCh (c : Char) : Bool := Nat.ble 48 c.toNat && Nat.ble c.toNat 57

/-- A `datetime` value as produced by `datetime.strptime` in
`parse_whatsapp_line` (minute precision). -/
structure WDateTime where
  year : Nat
  month : Nat
  day : Nat
  hour : Nat
  minute : Nat
deriving DecidableEq

/-- The record `parse_whatsapp_line` returns on success (its keys
`timestamp`, `username`, `message`). -/
structure WMsg where
  timestamp : WDateTime
  username : String
  message : String
deriving DecidableEq

/-- Numeric value of a digit string. -/
def digitsVal (l : List Char) : Nat :=
  l.foldl (fun a c => 10 * a + (c.toNat - 48)) 0

/-- Gregorian leap year, as in Python's `datetime`. -/
def isLeap (y : Nat) : Bool := y % 4 == 0 && (y % 100 != 0 || y % 400 == 0)

/-- Days in a month, as validated by the `datetime` constructor. -/
def daysInMonth (y m : Nat) : Nat :=
  if m == 2 then (if isLeap y then 29 else 28)
  else if m == 4 || m == 6 || m == 9 || m == 11 then 30
  else 31

/-- The `%y` pivot of `strptime`: two-digit years 00-68 are 2000-2068,
69-99 are 1969-1999. -/
def pivotYear (y2 : Nat) : Nat := if y2 ≤ 68 then 2000 + y2 else 1900 + y2

/-- The `%I`/`%p` hour conversion of `strptime`: 12 AM is hour 0,
12 PM stays 12, PM otherwise adds 12. -/
def toHour24 (h12 : Nat) (isPM : Bool) : Nat :=
  if isPM then (if h12 == 12 then 12 else h12 + 12)
  else (if h12 == 12 then 0 else h12)

/-- Success condition of
`datetime.strptime(timestamp_str, '%m/%d/%y, %I:%M %p')` (line 21) on the
captured timestamp substring, whose shape the outer regex has already fixed
to `\d{1,2}/\d{1,2}/\d{2,4},\s+\d{1,2}:\d{2}\s+[AP]M`.  Given that shape:
* `%y` matches exactly two digits and is followed in the format by `,`, so a
  3- or 4-digit year field fails;
* `%m` (`1[0-2]|0[1-9]|[1-9]`) followed by the literal `/` succeeds on a 1-2
  digit field iff its value is 1..12 (every partial match leaves a digit
  where `/` is required);
* `%d` (`3[01]|[12]\d|0[1-9]|[1-9]`) followed by `/`: value 1..31;
* `%I` followed by `:`: value 1..12; `%M` (`[0-5]\d|\d`) followed by
  whitespace on a 2-digit field: value 0..59; `%p` always matches `[AP]M`;
* finally the `datetime` constructor raises `ValueError` when the day is out
  of range for the month (so `parse_whatsapp_line` returns `None`). -/
def strptimeOk (mo da yr hr mi : List Char) : Bool :=
  decide (yr.length = 2 ∧
    1 ≤ digitsVal mo ∧ digitsVal mo ≤ 12 ∧
    1 ≤ digitsVal da ∧ digitsVal da ≤ 31 ∧
    1 ≤ digitsVal hr ∧ digitsVal hr ≤ 12 ∧
    digitsVal mi ≤ 59 ∧
    digitsVal da ≤ daysInMonth (pivotYear (digitsVal yr)) (digitsVal mo))

/-- The `(.*)$` tail of the header regex, applied after the `\s+` that
follows the colon: without DOTALL `.` does not match a newline, and `$` also
matches just before a terminating newline, so the capture succeeds iff the
remainder contains no newline except possibly a final one (excluded from the
capture). -/
def dotStarCapture (l : List Char) : Option (List Char) :=
  if '\n' ∈ l then
    if l.getLast? = some '\n' ∧ '\n' ∉ l.dropLast then some l.dropLast
    else none
  else some l

/-- A maximal-munch span (greedy `p*`) whose capture length must lie in a
window: used for the bounded `\\d` quantifiers of the header regex, each of
which is followed by a non-digit literal, so greedy matching with
backtracking succeeds iff the whole digit run is within the length window. -/
def reqSpanWin (p : Char → Bool) (lo hi : Nat) (l : List Char) :
    Option (List Char × List Char) :=
  let (a, r) := l.span p
  if lo ≤ a.length ∧ a.length ≤ hi then some (a, r) else none

/-- A maximal-munch span requiring at least one character (`p+`): used for
the `\\s+` runs, each of which (except the one before the speaker, handled in
`speakerStep`) is followed by a character outside the class. -/
def reqPlus (p : Char → Bool) (l : List Char) :
    Option (List Char × List Char) :=
  let (a, r) := l.span p
  if a.isEmpty then none else some (a, r)

/-- A required literal character. -/
def reqChar (c : Char) : List Char → Option (List Char)
  | x :: r => if x = c then some r else none
  | [] => none

/-- The `[AP]M` part of the header regex. -/
def ampmStep : List Char → Option (Char × List Char)
  | c :: 'M' :: r => if c = 'A' ∨ c = 'P' then some (c, r) else none
  | _ => none

/-- The `\\s+([^:]+):` part of the header regex after the `-`.  The only
genuine backtracking point of the whole regex: `[^:]+` also matches
whitespace, so when the character right after the maximal whitespace run is
`:`, the regex gives back one whitespace character of the run (if the run
has at least two) and captures it as the speaker. -/
def speakerStep (l : List Char) : Option (List Char × List Char) :=
  let (w4, r15) := l.span pySpace
  if w4.isEmpty then none else
  let (uname, r16) := r15.span (fun c => c != ':')
  if uname.isEmpty then
    match r16, w4.getLast? with
    | ':' :: r17, some wc =>
      if 2 ≤ w4.length then some ([wc], r17) else none
    | _, _ => none
  else
    match r16 with
    | ':' :: r17 => some (uname, r17)
    | _ => none

/-- The `\\s+(.*)$` part of the header regex after the colon. -/
def msgStep (l : List Char) : Option (List Char) :=
  let (w5, r18) := l.span pySpace
  if w5.isEmpty then none else dotStarCapture r18

/-- The anchored header regex of `parse_whatsapp_line` (line 14),
`^(\\d{1,2}/\\d{1,2}/\\d{2,4},\\s+\\d{1,2}:\\d{2}\\s+[AP]M)\\s+-\\s+([^:]+):\\s+(.*)$`,
as a deterministic parser, followed by the `strptime` validation
(`strptimeOk`) of group 1 and the `.strip()` of the speaker and text
captures (lines 14-26).  Each bounded `\\d` quantifier is followed by a
non-digit literal and each `\\s+` (except the one before the speaker) by a
non-whitespace character class, so greedy matching with backtracking
collapses to maximal-munch spans with a length window; the one remaining
backtracking point lives in `speakerStep`. -/
def parseLineCore (l : List Char) : Option WMsg :=
  match reqSpanWin isDigitCh 1 2 l with
  | none => none
  | some (mo, r1) =>
  match reqChar '/' r1 with
  | none => none
  | some r2 =>
  match reqSpanWin isDigitCh 1 2 r2 with
  | none => none
  | some (da, r3) =>
  match reqChar '/' r3 with
  | none => none
  | some r4 =>
  match reqSpanWin isDigitCh 2 4 r4 with
  | none => none
  | some (yr, r5) =>
  match reqChar ',' r5 with
  | none => none
  | some r6 =>
  match reqPlus pySpace r6 with
  | none => none
  | some (_, r7) =>
  match reqSpanWin isDigitCh 1 2 r7 with
  | none => none
  | some (hr, r8) =>
  match reqChar ':' r8 with
  | none => none
  | some r9 =>
  match reqSpanWin isDigitCh 2 2 r9 with
  | none => none
  | some (mi, r10) =>
  match reqPlus pySpace r10 with
  | none => none
  | some (_, r11) =>
  match ampmStep r11 with
  | none => none
  | some (ap, r12) =>
  match reqPlus pySpace r12 with
  | none => none
  | some (_, r13) =>
  match reqChar '-' r13 with
  | none => none
  | some r14 =>
  match speakerStep r14 with
  | none => none
  | some (uname, r17) =>
  match msgStep r17 with
  | none => none
  | some msgRaw =>
  if strptimeOk mo da yr hr mi then
    some { timestamp :=
             { year := pivotYear (digitsVal yr), month := digitsVal mo,
               day := digitsVal da,
               hour := toHour24 (digitsVal hr) (ap == 'P'),
               minute := digitsVal mi },
           username := ⟨pyStripList uname⟩,
           message := ⟨pyStripList msgRaw⟩ }
  else none

/-- `parse_whatsapp_line` (lines 8-29). -/
def parse_whatsapp_line (line : String) : Option WMsg := parseLineCore line.data

/-- A parsed message record as it flows through the pipeline stages
(`group_by_time_gap` onwards).  The timestamp is in minutes (see the header
comment). -/
structure PMsg where
  timestamp : Int
  username : String
  message : String
deriving DecidableEq

/-- Python truthiness of an optional string (`elif media_replacement:`):
`None` and the empty string are falsy. -/
def pyTruthy : Option String → Bool
  | none => false
  | some s => !s.isEmpty

/-- The media handling of the loop body of `group_by_time_gap` (lines 89-94):
drop the message (`none`) when `filter_media` is set, else replace the body
when the replacement is truthy. -/
def mediaStage (filter_media : Bool) (media_replacement : Option String)
    (m : PMsg) : Option PMsg :=
  if containsSubstr mediaMarker m.message then
    if filter_media then none
    else if pyTruthy media_replacement then
      some { m with message := media_replacement.getD "" }
    else some m
  else some m

/-- The link handling of the loop body of `group_by_time_gap` (lines 96-101). -/
def linkStage (filter_links : Bool) (link_replacement : Option String)
    (m : PMsg) : Option PMsg :=
  if contains_link m.message then
    if filter_links then none
    else if pyTruthy link_replacement then
      some { m with message := link_replacement.getD "" }
    else some m
  else some m

/-- `replace('\n', ' ').replace('\r', ' ')` (line 108). -/
def newlineNorm (s : String) : String :=
  ⟨s.data.map (fun c => if c == '\n' || c == '\r' then ' ' else c)⟩

/-- The empty-message drop (line 104) followed by newline normalisation
(line 108). -/
def emptyNewlineStage (m : PMsg) : Option PMsg :=
  if (pyStrip m.message).isEmpty then none
  else some { m with message := newlineNorm m.message }

/-- Processing of a single message after the media stage: link handling, the
empty-message drop, newline normalisation (lines 96-108). -/
def linkEmptyStage (filter_links : Bool) (link_replacement : Option String)
    (m : PMsg) : Option PMsg :=
  (linkStage filter_links link_replacement m).bind emptyNewlineStage

/-- The whole per-message part of the loop body of `group_by_time_gap`
(lines 89-108): `none` means the loop `continue`d, i.e. the message was
dropped before reaching the block logic. -/
def processMsg (filter_media filter_links : Bool)
    (media_replacement link_replacement : Option String)
    (m : PMsg) : Option PMsg :=
  (mediaStage filter_media media_replacement m).bind
    (linkEmptyStage filter_links link_replacement)

/-- Timestamp of the last message of a block (`current_block[-1]['timestamp']`,
line 114); 0 on an empty block (the Python code never takes it there). -/
def lastTs : List PMsg → Int
  | [] => 0
  | [m] => m.timestamp
  | _ :: m :: rest => lastTs (m :: rest)

/-- The block-building loop of `group_by_time_gap` (lines 88-126), with the
state `(blocks, current_block)` made explicit. -/
def gbtgLoop (split_minutes : Int) (filter_media filter_links : Bool)
    (media_replacement link_replacement : Option String) :
    List PMsg → List (List PMsg) → List PMsg → List (List PMsg)
  | [], blocks, cur => if cur.isEmpty then blocks else blocks ++ [cur]
  | msg :: rest, blocks, cur =>
    match processMsg filter_media filter_links media_replacement
        link_replacement msg with
    | none =>
      gbtgLoop split_minutes filter_media filter_links media_replacement
        link_replacement rest blocks cur
    | some m =>
      if cur.isEmpty then
        gbtgLoop split_minutes filter_media filter_links media_replacement
          link_replacement rest blocks [m]
      else if split_minutes < m.timestamp - lastTs cur then
        gbtgLoop split_minutes filter_media filter_links media_replacement
          link_replacement rest (blocks ++ [cur]) [m]
      else
        gbtgLoop split_minutes filter_media filter_links media_replacement
          link_replacement rest blocks (cur ++ [m])

/-- `group_by_time_gap` (lines 75-128).  The test `time_diff > split_minutes`
is `split_minutes < m.timestamp - lastTs cur` here. -/
def group_by_time_gap (messages : List PMsg) (split_minutes : Int)
    (filter_media filter_links : Bool)
    (media_replacement link_replacement : Option String) : List (List PMsg) :=
  if messages.isEmpty then []
  else
    gbtgLoop split_minutes filter_media filter_links media_replacement
      link_replacement messages [] []

/-- `filter_single_speaker_blocks` (lines 131-146): the speaker set size is
the number of distinct usernames. -/
def filter_single_speaker_blocks (blocks : List (List PMsg))
    (min_messages : Nat := 2) : List (List PMsg) :=
  blocks.filter (fun block =>
    2 ≤ ((block.map PMsg.username).dedup).length ∧ min_messages ≤ block.length)

/-- A Conversation: ordered (role, text) pairs, duplicates allowed. -/
abbrev Conv := List (String × String)

/-- The role key assigned to a username by `convert_to_json_format`
(lines 161-169): `user_name` is tested first, then `char_name`, other
speakers are skipped. -/
def roleKey (user_name char_name uname : String) : Option String :=
  if uname = user_name then some userTok
  else if uname = char_name then some charTok
  else none

/-- The conversation built from one block by `convert_to_json_format`
(lines 157-171). -/
def convBlock (user_name char_name : String) (block : List PMsg) : Conv :=
  block.filterMap (fun m =>
    (roleKey user_name char_name m.username).map (fun k => (k, m.message)))

/-- `convert_to_json_format` (lines 149-177).  The running set
`speakers_present` equals the set of first components of the built
conversation, so its size is the number of distinct keys. -/
def convert_to_json_format (blocks : List (List PMsg))
    (user_name char_name : String) : List Conv :=
  blocks.filterMap (fun block =>
    let conversation := convBlock user_name char_name block
    if 2 ≤ ((conversation.map Prod.fst).dedup).length ∧ conversation ≠ [] then
      some conversation
    else none)

/-- Lowercase hex digit, as produced by Python's `\uXXXX` escapes. -/
def hexDigit (n : Nat) : Char :=
  if n < 10 then Char.ofNat (48 + n) else Char.ofNat (87 + n)

/-- Four lowercase hex digits (`\u%04x`). -/
def hex4 (n : Nat) : List Char :=
  [hexDigit (n / 4096 % 16), hexDigit (n / 256 % 16),
   hexDigit (n / 16 % 16), hexDigit (n % 16)]

/-- The escape `json.dumps(·, ensure_ascii=False)` applies to one character
of a string: quote, backslash and the named control escapes, `\uXXXX` for the
remaining control characters, everything else (ASCII or not) verbatim. -/
def jsonEscapeChar (c : Char) : List Char :=
  if c == '"' then ['\\', '"']
  else if c == '\\' then ['\\', '\\']
  else if c == '\n' then ['\\', 'n']
  else if c == '\r' then ['\\', 'r']
  else if c == '\t' then ['\\', 't']
  else if c == Char.ofNat 8 then ['\\', 'b']
  else if c == Char.ofNat 12 then ['\\', 'f']
  else if c.toNat < 32 then '\\' :: 'u' :: hex4 c.toNat
  else [c]

/-- Body of the JSON string literal for `s` (without the enclosing quotes). -/
def escBody (l : List Char) : List Char := (l.map jsonEscapeChar).flatten

/-- `json.dumps(value, ensure_ascii=False)` on a string (line 192). -/
def json_dumps (s : String) : String := ⟨'"' :: (escBody s.data ++ ['"'])⟩

/-- One key-value line of the serializer (line 193), without the optional
trailing comma. -/
def pairLine (key value : String) : String :=
  "      \"" ++ key ++ "\": " ++ json_dumps value

/-- The key-value lines of one conversation with the comma logic of
lines 196-197 (a comma on every line but the last). -/
def pairLines : Conv → List String
  | [] => []
  | [p] => [pairLine p.1 p.2]
  | p :: q :: rest => (pairLine p.1 p.2 ++ ",") :: pairLines (q :: rest)

/-- The lines of one conversation object (lines 188-205); `comma` tells
whether the closing brace gets the separating comma (the object is not the
last one). -/
def convLines (comma : Bool) (conv : Conv) : List String :=
  "    \x7b" :: (pairLines conv ++ [if comma then "    \x7d," else "    \x7d"])

/-- The lines of all conversation objects; the index comparison
`i < len(conversations) - 1` of line 202 becomes a last-element test. -/
def convsLines : List Conv → List String
  | [] => []
  | [c] => convLines false c
  | c :: c' :: rest => convLines true c ++ convsLines (c' :: rest)

/-- Python `'\n'.join(lines)` (line 210). -/
def joinNl : List String → String
  | [] => ""
  | [s] => s
  | s :: s' :: rest => s ++ "\n" ++ joinNl (s' :: rest)

/-- `serialize_to_json_with_duplicate_keys` (lines 180-210). -/
def serialize_to_json_with_duplicate_keys (conversations : List Conv) : String :=
  joinNl (["\x7b", "  \"example_conversation\": ["] ++
    convsLines conversations ++ ["  ]", "\x7d"])

/-- The greedy append-or-stop loop of `fit_to_character_limit`
(lines 222-229 and 241-248): `result` is the selection so far. -/
def fitLoop (character_limit : Int) : List Conv → List Conv → List Conv
  | result, [] => result
  | result, conv :: rest =>
    let test_result := result ++ [conv]
    if ((serialize_to_json_with_duplicate_keys test_result).length : Int) ≤
        character_limit then
      fitLoop character_limit test_result rest
    else result

/-- `fit_to_character_limit` (lines 213-250).  `shuffled` stands for the
result of `random.shuffle(conversations_copy)`; theorems quantify over it. -/
def fit_to_character_limit (conversations shuffled : List Conv)
    (character_limit : Int) : List Conv :=
  let result := fitLoop character_limit [] conversations
  if result.length = conversations.length then result
  else if result.length < conversations.length then
    fitLoop character_limit [] shuffled
  else result

/-- Timestamp of the first message of a block (0 on an empty block). -/
def blkHeadTs : List PMsg → Int
  | [] => 0
  | m :: _ => m.timestamp

/-- The within-block invariant of the Segmenter: every consecutive pair of
messages has an elapsed time of at most `split` minutes. -/
def withinOk (split : Int) (b : List PMsg) : Prop :=
  List.Chain' (fun a a' => a'.timestamp - a.timestamp ≤ split) b

/-- The between-block invariant of the Segmenter: the gap from the last
message of `b1` to the first message of `b2` strictly exceeds `split`. -/
def blockGapOk (split : Int) (b1 b2 : List PMsg) : Prop :=
  split < blkHeadTs b2 - lastTs b1

/-- A header line `MO/DA/YR, HR:MI APM - SPEAKER: TEXT` assembled from its
fields with single separating spaces, matching the spec's line format
`M/D/YY(YY), H:MM AM|PM - Speaker: Text`. -/
def renderLine (mo da yr hr mi : List Char) (ap : Char)
    (speaker text : List Char) : List Char :=
  mo ++ '/' :: (da ++ '/' :: (yr ++ ',' :: ' ' :: (hr ++ ':' :: (mi ++
    ' ' :: ap :: 'M' :: ' ' :: '-' :: ' ' ::
      (speaker ++ ':' :: ' ' :: text)))))

/-- The literal timestamp encoded in a header line with a two-digit year,
after `strptime`'s pivot and 12-hour-clock conversions. -/
def literalStamp (mo da yr hr mi : List Char) (ap : Char) : WDateTime :=
  { year := pivotYear (digitsVal yr), month := digitsVal mo,
    day := digitsVal da, hour := toHour24 (digitsVal hr) (ap == 'P'),
    minute := digitsVal mi }

/-! ### A standard JSON reader (the spec's round-trip observer for the
Duplicate-Key Serializer)

The serializer round-trip property compares the emitted document against a
*standard JSON reader* that keeps every object's entries as an ordered list
(so repeated keys survive).  The reader below is not part of the Python
source; it follows the spec's words: a recursive-descent reader for the JSON
fragment the serializer emits (strings, arrays, objects, with standard
string escapes including `\uXXXX`), with an explicit fuel argument as a
totality measure. -/

/-- The opening brace character. -/
def obrace : Char := Char.ofNat 123

/-- The closing brace character. -/
def cbrace : Char := Char.ofNat 125

/-- A JSON value, with object entries as an ordered association list so that
duplicate keys and entry order are observable. -/
inductive JVal where
  | str : String → JVal
  | arr : List JVal → JVal
  | obj : List (String × JVal) → JVal

/-- JSON insignificant whitespace. -/
def jsonWs (c : Char) : Bool :=
  c == ' ' || c == '\t' || c == '\n' || c == '\r'

/-- Skip insignificant whitespace. -/
def skipWs (l : List Char) : List Char := l.dropWhile jsonWs

/-- Value of a hexadecimal digit. -/
def hexVal (c : Char) : Option Nat :=
  if Nat.ble 48 c.toNat && Nat.ble c.toNat 57 then some (c.toNat - 48)
  else if Nat.ble 97 c.toNat && Nat.ble c.toNat 102 then some (c.toNat - 87)
  else if Nat.ble 65 c.toNat && Nat.ble c.toNat 70 then some (c.toNat - 55)
  else none

/-- The single-character JSON string escapes. -/
def escDecode (c : Char) : Option Char :=
  if c = '"' then some '"'
  else if c = '\\' then some '\\'
  else if c = '/' then some '/'
  else if c = 'n' then some '\n'
  else if c = 'r' then some '\r'
  else if c = 't' then some '\t'
  else if c = 'b' then some (Char.ofNat 8)
  else if c = 'f' then some (Char.ofNat 12)
  else none

/-- Read the body of a JSON string literal (after the opening quote) up to
its closing quote: raw characters must not be controls, `\uXXXX` and the
single-character escapes are decoded. -/
def parseStringBody : List Char → Option (List Char × List Char)
  | [] => none
  | c :: rest =>
    if c = '"' then some ([], rest)
    else if c = '\\' then
      match rest with
      | 'u' :: h1 :: h2 :: h3 :: h4 :: rest2 =>
        (match hexVal h1, hexVal h2, hexVal h3, hexVal h4 with
         | some a, some b, some c3, some d =>
           (parseStringBody rest2).map
             (fun p => (Char.ofNat (4096 * a + 256 * b + 16 * c3 + d) :: p.1,
               p.2))
         | _, _, _, _ => none)
      | e :: rest2 =>
        (match escDecode e with
         | some c' => (parseStringBody rest2).map (fun p => (c' :: p.1, p.2))
         | none => none)
      | [] => none
    else if c.toNat < 32 then none
    else (parseStringBody rest).map (fun p => (c :: p.1, p.2))

mutual

/-- Read one JSON value (string, array or object). -/
def parseVal : Nat → List Char → Option (JVal × List Char)
  | 0, _ => none
  | fuel + 1, cs =>
    match skipWs cs with
    | [] => none
    | c :: rest =>
      if c = '"' then
        match parseStringBody rest with
        | some (s, r) => some (JVal.str ⟨s⟩, r)
        | none => none
      else if c = '[' then
        match skipWs rest with
        | [] => none
        | c2 :: r2 =>
          if c2 = ']' then some (JVal.arr [], r2)
          else
            match parseVal fuel rest with
            | some (v, r) => parseArrTail fuel [v] r
            | none => none
      else if c = obrace then
        match skipWs rest with
        | [] => none
        | c2 :: r2 =>
          if c2 = cbrace then some (JVal.obj [], r2)
          else
            match parsePair fuel rest with
            | some (kv, r) => parseObjTail fuel [kv] r
            | none => none
      else none

/-- Read one `"key": value` member. -/
def parsePair : Nat → List Char → Option ((String × JVal) × List Char)
  | 0, _ => none
  | fuel + 1, cs =>
    match skipWs cs with
    | [] => none
    | c :: rest =>
      if c = '"' then
        match parseStringBody rest with
        | some (k, r) =>
          (match skipWs r with
           | ':' :: r2 =>
             (match parseVal fuel r2 with
              | some (v, r3) => some ((⟨k⟩, v), r3)
              | none => none)
           | _ => none)
        | none => none
      else none

/-- Read the rest of an array after its first element. -/
def parseArrTail : Nat → List JVal → List Char → Option (JVal × List Char)
  | 0, _, _ => none
  | fuel + 1, acc, cs =>
    match skipWs cs with
    | [] => none
    | c :: r =>
      if c = ']' then some (JVal.arr acc, r)
      else if c = ',' then
        match parseVal fuel r with
        | some (v, r2) => parseArrTail fuel (acc ++ [v]) r2
        | none => none
      else none

/-- Read the rest of an object after its first member. -/
def parseObjTail : Nat → List (String × JVal) → List Char →
    Option (JVal × List Char)
  | 0, _, _ => none
  | fuel + 1, acc, cs =>
    match skipWs cs with
    | [] => none
    | c :: r =>
      if c = cbrace then some (JVal.obj acc, r)
      else if c = ',' then
        match parsePair fuel r with
        | some (kv, r2) => parseObjTail fuel (acc ++ [kv]) r2
        | none => none
      else none

end

/-- The reader's entry point: one value, then only whitespace may remain. -/
def json_loads (fuel : Nat) (s : String) : Option JVal :=
  match parseVal fuel s.data with
  | some (v, rest) => if skipWs rest = [] then some v else none
  | none => none

/-- The JSON value of one Conversation: an object whose ordered entries are
the (role, text) pairs. -/
def convJ (conv : Conv) : JVal :=
  JVal.obj (conv.map (fun p => (p.1, JVal.str p.2)))

/-- The JSON value of the whole document. -/
def docJ (conversations : List Conv) : JVal :=
  JVal.obj [("example_conversation",
    JVal.arr (conversations.map convJ))]

/-- Fuel needed by the array-tail reader for the remaining conversations. -/
def needA : List Conv → Nat
  | [] => 1
  | c :: rest => 2 * c.length + 3 + needA rest

/-- Fuel sufficient to read the whole serialized document. -/
def docFuel (conversations : List Conv) : Nat := needA conversations + 4

/-- A character that may appear raw inside a JSON string without being the
start of an escape (the serializer's keys are emitted verbatim, so round
trips need their characters to be of this kind). -/
def plainChar (c : Char) : Bool :=
  (c != '"') && (c != '\\') && Nat.ble 32 c.toNat

/-! ### Character streams of the serializer's output

These definitions name the exact character sequences the serializer's line
structure produces, so proofs can relate the joined line list to the
reader's steps. -/

/-- Two, four and six spaces of indentation. -/
def sp2 : List Char := [' ', ' ']

/-- Four spaces of indentation. -/
def sp4 : List Char := [' ', ' ', ' ', ' ']

/-- Six spaces of indentation. -/
def sp6 : List Char := [' ', ' ', ' ', ' ', ' ', ' ']

/-- The characters of one key-value line (without its optional comma). -/
def pairChars (p : String × String) : List Char :=
  sp6 ++ '"' :: (p.1.data ++ '"' :: ':' :: ' ' ::
    '"' :: (escBody p.2.data ++ ['"']))

/-- The characters of the remaining key-value lines of an object, each
preceded by the previous line's comma and the newline. -/
def pairsTailChars : Conv → List Char
  | [] => []
  | p :: rest => ',' :: '\n' :: (pairChars p ++ pairsTailChars rest)

/-- The characters of one conversation object (without a trailing comma). -/
def convObjChars (conv : Conv) : List Char :=
  sp4 ++ obrace :: (match conv with
    | [] => '\n' :: (sp4 ++ [cbrace])
    | p :: ps => '\n' :: (pairChars p ++ (pairsTailChars ps ++
        ('\n' :: (sp4 ++ [cbrace])))))

/-- The characters of the remaining conversation objects, each preceded by
the previous object's comma and the newline. -/
def arrTailChars : List Conv → List Char
  | [] => []
  | c :: rest => ',' :: '\n' :: (convObjChars c ++ arrTailChars rest)

/-- The characters of the conversation array, from its opening bracket to
its closing bracket. -/
def arrChars (conversations : List Conv) : List Char :=
  '[' :: (match conversations with
    | [] => '\n' :: (sp2 ++ [']'])
    | c :: cs => '\n' :: (convObjChars c ++ (arrTailChars cs ++
        ('\n' :: (sp2 ++ [']'])))))

/-- The characters of the whole serialized document. -/
def docChars (conversations : List Conv) : List Char :=
  obrace :: '\n' :: (sp2 ++ ('"' :: ("example_conversation".data ++
    ('"' :: ':' :: ' ' :: (arrChars conversations ++ ('\n' :: [cbrace]))))))

/-- The character stream of `'\n'.join(lines)`. -/
def charsOfLines : List String → List Char
  | [] => []
  | [s] => s.data
  | s :: s' :: rest => s.data ++ '\n' :: charsOfLines (s' :: rest)

/-! ## Theorems -/

/-- The greedy loop of the Capacity Selector preserves its invariant: if the
selection accumulated so far serializes within the limit, so does the final
selection (every extension is re-serialized and checked before it is kept). -/
theorem fitLoop_length_le (limit : Int) :
    ∀ (rest acc : List Conv),
      ((serialize_to_json_with_duplicate_keys acc).length : Int) ≤ limit →
      ((serialize_to_json_with_duplicate_keys
          (fitLoop limit acc rest)).length : Int) ≤ limit
  | [], _, h => h
  | conv :: rest, acc, h => by
    rw [fitLoop]
    split
    · exact fitLoop_length_le limit rest _ ‹_›
    · exact h

/-- C1 (amended): whenever the character budget is at least the length of the
serialized empty selection (35 characters), serializing the Capacity
Selector's output stays within the budget, for every input list and every
outcome of the phase-2 shuffle; in particular the empty selection satisfies
every such budget.  (For smaller budgets the claim fails, see the
counterexample.) -/
theorem capacity_selector_budget (conversations shuffled : List Conv)
    (character_limit : Int)
    (h : ((serialize_to_json_with_duplicate_keys ([] : List Conv)).length :
        Int) ≤ character_limit) :
    ((serialize_to_json_with_duplicate_keys
        (fit_to_character_limit conversations shuffled
          character_limit)).length : Int) ≤ character_limit := by
  unfold fit_to_character_limit
  dsimp only
  split
  · exact fitLoop_length_le character_limit conversations [] h
  · split
    · exact fitLoop_length_le character_limit shuffled [] h
    · exact fitLoop_length_le character_limit conversations [] h

/-- C1 witness: the empty input with budget 35 is within budget. -/
theorem capacity_selector_budget_witness :
    ((serialize_to_json_with_duplicate_keys
        (fit_to_character_limit [] [] 35)).length : Int) ≤ 35 :=
  capacity_selector_budget [] [] 35 (by decide)

/-- C1 counterexample: with budget 0 (smaller than the 35-character empty
document) even the empty selection — which is what the selector returns —
serializes to more than the budget, so the unconditional claim is false. -/
theorem capacity_selector_budget_counterexample :
    ¬ ((serialize_to_json_with_duplicate_keys
        (fit_to_character_limit [] [] 0)).length : Int) ≤ 0 := by decide

/-- If every (nonempty) extension of `acc` by a prefix of `rest` fits the
budget, the greedy loop consumes all of `rest`. -/
theorem fitLoop_all (limit : Int) :
    ∀ (rest acc : List Conv),
      (∀ n, 1 ≤ n → n ≤ rest.length →
        ((serialize_to_json_with_duplicate_keys
            (acc ++ rest.take n)).length : Int) ≤ limit) →
      fitLoop limit acc rest = acc ++ rest
  | [], acc, _ => by simp [fitLoop]
  | conv :: rest, acc, h => by
    rw [fitLoop]
    rw [if_pos (by simpa using h 1 (by omega) (by simp))]
    have ih := fitLoop_all limit rest (acc ++ [conv]) (fun n h1 h2 => by
      have := h (n + 1) (by omega) (by simpa using h2)
      simpa [List.take_succ_cons] using this)
    simpa using ih

/-- C7: if phase 1 of the Capacity Selector accepts every input Conversation
(every nonempty input prefix serializes within the budget), then the output
equals the input list in its original order, whatever the phase-2 shuffle
would have been — i.e. phase 2 does not run. -/
theorem phase_one_complete (conversations shuffled : List Conv)
    (character_limit : Int)
    (h : ∀ n, 1 ≤ n → n ≤ conversations.length →
      ((serialize_to_json_with_duplicate_keys
          (conversations.take n)).length : Int) ≤ character_limit) :
    fit_to_character_limit conversations shuffled character_limit =
      conversations := by
  have hloop : fitLoop character_limit [] conversations = conversations := by
    simpa using fitLoop_all character_limit conversations []
      (fun n h1 h2 => by simpa using h n h1 h2)
  unfold fit_to_character_limit
  rw [hloop]
  simp

/-- C7 witness: a single small conversation under a generous budget is
returned unchanged. -/
theorem phase_one_complete_witness :
    fit_to_character_limit [[("a", "b")]] [] 100 = [[("a", "b")]] :=
  phase_one_complete [[("a", "b")]] [] 100 (fun n h1 h2 => by
    have hn : n = 1 := le_antisymm h2 h1
    subst hn
    decide)

/-- Every pair of a block's conversation originates from a message whose
speaker is one of the two configured names, carries the corresponding role
token and the message's body. -/
theorem convBlock_mem (u c : String) (block : List PMsg) (p : String × String)
    (hp : p ∈ convBlock u c block) :
    ∃ m ∈ block, (m.username = u ∧ p = (userTok, m.message)) ∨
      (m.username ≠ u ∧ m.username = c ∧ p = (charTok, m.message)) := by
  rcases List.mem_filterMap.mp hp with ⟨m, hm, hf⟩
  refine ⟨m, hm, ?_⟩
  unfold roleKey at hf
  by_cases h1 : m.username = u
  · rw [if_pos h1] at hf
    rw [Option.map_some'] at hf
    exact Or.inl ⟨h1, (Option.some.inj hf).symm⟩
  · by_cases h2 : m.username = c
    · rw [if_neg h1, if_pos h2] at hf
      rw [Option.map_some'] at hf
      exact Or.inr ⟨h1, h2, (Option.some.inj hf).symm⟩
    · rw [if_neg h1, if_neg h2] at hf
      simp at hf

/-- A list all of whose elements equal `a` has at most one distinct element. -/
theorem dedup_length_le_one {α : Type} [DecidableEq α] (l : List α) (a : α)
    (h : ∀ x ∈ l, x = a) : l.dedup.length ≤ 1 := by
  match hd : l.dedup with
  | [] => simp
  | [_] => simp
  | x :: y :: t =>
    exfalso
    have hnd := l.nodup_dedup
    rw [hd] at hnd
    have hx : x = a := h x (List.mem_dedup.mp (by rw [hd]; simp))
    have hy : y = a := h y (List.mem_dedup.mp (by rw [hd]; simp))
    rcases List.nodup_cons.mp hnd with ⟨hxny, _⟩
    exact hxny (by rw [hx, hy]; simp)

/-- C10: if `user_name` equals `char_name`, the Role Mapper returns the empty
list: the `user_name` test is checked first, so every kept message is mapped
to the user token, the role set never reaches size 2, and every block is
discarded. -/
theorem role_mapper_equal_names (blocks : List (List PMsg)) (u : String) :
    convert_to_json_format blocks u u = [] := by
  unfold convert_to_json_format
  rw [List.filterMap_eq_nil_iff]
  intro block _
  have hkeys : ∀ x ∈ (convBlock u u block).map Prod.fst, x = userTok := by
    intro x hx
    rcases List.mem_map.mp hx with ⟨p, hp, rfl⟩
    rcases convBlock_mem u u block p hp with ⟨m, _, hcase⟩
    rcases hcase with ⟨_, rfl⟩ | ⟨hne, heq, _⟩
    · rfl
    · exact absurd heq hne
  have hle := dedup_length_le_one _ _ hkeys
  rw [if_neg]
  omega

/-- A list over a two-element alphabet with at least two distinct elements
contains both letters. -/
theorem two_dedup_both {l : List String} {a b : String}
    (hall : ∀ x ∈ l, x = a ∨ x = b) (hlen : 2 ≤ l.dedup.length) :
    a ∈ l ∧ b ∈ l := by
  constructor
  · by_contra hna
    have hb : ∀ x ∈ l, x = b := fun x hx =>
      (hall x hx).resolve_left (fun e => hna (e ▸ hx))
    have := dedup_length_le_one l b hb
    omega
  · by_contra hnb
    have ha : ∀ x ∈ l, x = a := fun x hx =>
      (hall x hx).resolve_right (fun e => hnb (e ▸ hx))
    have := dedup_length_le_one l a ha
    omega

/-- C5: every Conversation emitted by the Role Mapper is non-empty, contains
at least one pair with the user role token and one with the char role token,
every pair's role is one of the two tokens, and every pair originates from a
message of some input block whose speaker is `user_name` or `char_name`. -/
theorem role_mapper_sound (blocks : List (List PMsg))
    (user_name char_name : String) :
    ∀ conv ∈ convert_to_json_format blocks user_name char_name,
      conv ≠ [] ∧
      (∃ p ∈ conv, p.1 = userTok) ∧
      (∃ p ∈ conv, p.1 = charTok) ∧
      (∀ p ∈ conv, p.1 = userTok ∨ p.1 = charTok) ∧
      (∃ block ∈ blocks, ∀ p ∈ conv, ∃ m ∈ block,
        (m.username = user_name ∨ m.username = char_name) ∧
          p.2 = m.message) := by
  intro conv hconv
  unfold convert_to_json_format at hconv
  rcases List.mem_filterMap.mp hconv with ⟨block, hb, hf⟩
  dsimp only at hf
  split at hf
  case isFalse => exact absurd hf (by simp)
  case isTrue hcond =>
    rcases Option.some.inj hf with rfl
    have hkeys : ∀ x ∈ (convBlock user_name char_name block).map Prod.fst,
        x = userTok ∨ x = charTok := by
      intro x hx
      rcases List.mem_map.mp hx with ⟨p, hp, rfl⟩
      rcases convBlock_mem user_name char_name block p hp with ⟨m, _, hcase⟩
      rcases hcase with ⟨_, rfl⟩ | ⟨_, _, rfl⟩
      · exact Or.inl rfl
      · exact Or.inr rfl
    rcases two_dedup_both hkeys hcond.1 with ⟨hu, hc⟩
    refine ⟨hcond.2, ?_, ?_, ?_, block, hb, ?_⟩
    · rcases List.mem_map.mp hu with ⟨p, hp, hpk⟩
      exact ⟨p, hp, hpk⟩
    · rcases List.mem_map.mp hc with ⟨p, hp, hpk⟩
      exact ⟨p, hp, hpk⟩
    · intro p hp
      exact hkeys p.1 (List.mem_map.mpr ⟨p, hp, rfl⟩)
    · intro p hp
      rcases convBlock_mem user_name char_name block p hp with ⟨m, hm, hcase⟩
      rcases hcase with ⟨h1, rfl⟩ | ⟨_, h2, rfl⟩
      · exact ⟨m, hm, Or.inl h1, rfl⟩
      · exact ⟨m, hm, Or.inr h2, rfl⟩

/-- C5 witness: a concrete two-speaker block passes, and its conversation is
non-empty. -/
theorem role_mapper_sound_witness :
    [(userTok, "hi"), (charTok, "yo")] ≠ ([] : Conv) :=
  (role_mapper_sound
    [[{ timestamp := 0, username := "A", message := "hi" },
      { timestamp := 1, username := "B", message := "yo" }]] "A" "B"
    [(userTok, "hi"), (charTok, "yo")] (by decide)).1

/-- A non-empty string is Python-truthy. -/
theorem pyTruthy_some_of_ne {r : String} (h : r ≠ "") :
    pyTruthy (some r) = true := by
  show (!r.isEmpty) = true
  cases he : r.isEmpty with
  | true => exact absurd ((String.isEmpty_iff r).mp he) h
  | false => rfl

/-- C6 (amended): for a message whose body contains the media marker:
with `filter_media` the message is dropped outright, whatever the link
options; without it, a *non-empty* replacement string becomes the new body
exactly, and processing continues with the link stage applied to that new
body — so a replacement without a link skips the link branch entirely, and a
replacement containing a link together with `filter_links` drops the message
(the claim's unconditional "the body becomes exactly the replacement string"
fails for the empty replacement, which Python treats as falsy; see the
counterexample). -/
theorem sanitizer_media_policy (m : PMsg) (filter_links : Bool)
    (media_replacement link_replacement : Option String) (r : String)
    (hmedia : containsSubstr mediaMarker m.message = true) :
    (processMsg true filter_links media_replacement link_replacement m =
      none) ∧
    (r ≠ "" →
      processMsg false filter_links (some r) link_replacement m =
        linkEmptyStage filter_links link_replacement
          { m with message := r }) ∧
    (r ≠ "" → contains_link r = false →
      processMsg false filter_links (some r) link_replacement m =
        emptyNewlineStage { m with message := r }) ∧
    (r ≠ "" → contains_link r = true →
      processMsg false true (some r) link_replacement m = none) := by
  have hmedia' : containsSubstr mediaMarker m.message := hmedia
  refine ⟨?_, ?_, ?_, ?_⟩
  · unfold processMsg mediaStage
    rw [if_pos hmedia', if_pos rfl]
    rfl
  · intro hr
    unfold processMsg mediaStage
    rw [if_pos hmedia', if_neg (by simp), if_pos (pyTruthy_some_of_ne hr)]
    rfl
  · intro hr hlink
    unfold processMsg mediaStage
    rw [if_pos hmedia', if_neg (by simp), if_pos (pyTruthy_some_of_ne hr)]
    show linkEmptyStage _ _ _ = _
    unfold linkEmptyStage linkStage
    rw [Option.getD_some]
    rw [if_neg (by simp [hlink])]
    rfl
  · intro hr hlink
    unfold processMsg mediaStage
    rw [if_pos hmedia', if_neg (by simp), if_pos (pyTruthy_some_of_ne hr)]
    show linkEmptyStage _ _ _ = _
    unfold linkEmptyStage linkStage
    rw [Option.getD_some]
    rw [if_pos (by simp [hlink]), if_pos rfl]
    rfl

/-- C6 witness: the spec's concrete scenario with the non-empty replacement
string: the body becomes exactly the replacement. -/
theorem sanitizer_media_policy_witness :
    processMsg false false (some "<sends an attachment>") none
        { timestamp := 0, username := "A", message := "<Media omitted>" } =
      emptyNewlineStage { timestamp := 0, username := "A",
                          message := "<sends an attachment>" } :=
  (sanitizer_media_policy
    { timestamp := 0, username := "A", message := "<Media omitted>" }
    false none none "<sends an attachment>" (by decide)).2.2.1
    (by decide) (by decide)

/-- C6 counterexample: with the replacement set to the empty string the body
does **not** become the replacement — Python's truthiness test skips the
substitution and the message survives with its original non-empty body. -/
theorem sanitizer_media_policy_counterexample :
    processMsg false false (some "") none
        { timestamp := 0, username := "A", message := "<Media omitted>" } =
      some { timestamp := 0, username := "A",
             message := "<Media omitted>" } ∧
    "<Media omitted>" ≠ "" := by
  constructor
  · decide
  · decide

/-- C9: a configured-but-empty replacement string behaves exactly like an
absent replacement, for media and links alike: the whole per-message
processing agrees, and when the corresponding filter flag is off the
respective stage leaves the message unchanged. -/
theorem empty_replacement_is_null (m : PMsg) (filter_media filter_links : Bool)
    (media_replacement link_replacement : Option String) :
    (processMsg filter_media filter_links (some "") link_replacement m =
      processMsg filter_media filter_links none link_replacement m) ∧
    (processMsg filter_media filter_links media_replacement (some "") m =
      processMsg filter_media filter_links media_replacement none m) ∧
    (containsSubstr mediaMarker m.message = true →
      mediaStage false (some "") m = some m) ∧
    (contains_link m.message = true →
      linkStage false (some "") m = some m) := by
  have h1 : pyTruthy (some "") = false := rfl
  have h2 : pyTruthy none = false := rfl
  refine ⟨?_, ?_, ?_, ?_⟩
  · unfold processMsg mediaStage
    simp [h1, h2]
  · unfold processMsg linkEmptyStage linkStage
    simp [h1, h2]
  · intro hm
    unfold mediaStage
    rw [if_pos hm, if_neg (by simp), if_neg (by rw [h1]; exact Bool.false_ne_true)]
  · intro hl
    unfold linkStage
    rw [if_pos hl, if_neg (by simp), if_neg (by rw [h1]; exact Bool.false_ne_true)]

/-- C9 witness: a concrete message containing both the media marker and a
link, with both empty replacements, is processed as with null replacements
and left unchanged by both stages. -/
theorem empty_replacement_is_null_witness :
    mediaStage false (some "")
        { timestamp := 0, username := "A",
          message := "<Media omitted> http://x.co" } =
      some { timestamp := 0, username := "A",
             message := "<Media omitted> http://x.co" } :=
  (empty_replacement_is_null
    { timestamp := 0, username := "A",
      message := "<Media omitted> http://x.co" }
    false false none none).2.2.1 (by decide)

/-- `lastTs` is the timestamp of the last element. -/
theorem lastTs_getLast : ∀ {l : List PMsg} {x : PMsg},
    l.getLast? = some x → lastTs l = x.timestamp
  | [m], x, h => by
    rw [List.getLast?_singleton] at h
    rw [Option.some.inj h]
    rfl
  | a :: b :: t, x, h => by
    rw [List.getLast?_cons_cons] at h
    show lastTs (b :: t) = x.timestamp
    exact lastTs_getLast h

/-- The head timestamp of a non-empty block is unchanged by appending. -/
theorem blkHeadTs_append (l : List PMsg) (m : PMsg) (h : l ≠ []) :
    blkHeadTs (l ++ [m]) = blkHeadTs l := by
  cases l with
  | nil => exact absurd rfl h
  | cons a t => rfl

/-- Invariant of the block-building loop of `group_by_time_gap`: starting
from a state whose accumulated blocks satisfy both Segmenter invariants and
whose current block chains correctly and is gap-separated from the last
accumulated block, the final block list satisfies both invariants. -/
theorem gbtgLoop_invariant (split : Int) (fm fl : Bool)
    (mr lr : Option String) :
    ∀ (rest : List PMsg) (blocks : List (List PMsg)) (cur : List PMsg),
      (∀ b ∈ blocks, withinOk split b) →
      withinOk split cur →
      List.Chain' (blockGapOk split) blocks →
      (∀ bl, blocks.getLast? = some bl → cur ≠ [] → blockGapOk split bl cur) →
      (cur = [] → blocks = []) →
      (∀ b ∈ gbtgLoop split fm fl mr lr rest blocks cur, withinOk split b) ∧
        List.Chain' (blockGapOk split) (gbtgLoop split fm fl mr lr rest blocks cur)
  | [], blocks, cur, hA, hC, hB, hD, _ => by
    rw [gbtgLoop]
    by_cases hcur : cur.isEmpty
    · rw [if_pos hcur]
      exact ⟨hA, hB⟩
    · rw [if_neg hcur]
      have hcne : cur ≠ [] := by
        intro he
        exact hcur (by rw [he]; rfl)
      constructor
      · intro b hb
        rcases List.mem_append.mp hb with h | h
        · exact hA b h
        · rw [List.mem_singleton.mp h]
          exact hC
      · rw [List.chain'_append]
        refine ⟨hB, List.chain'_singleton _, ?_⟩
        intro x hx y hy
        rw [List.head?_cons, Option.mem_some_iff] at hy
        subst hy
        exact hD x (Option.mem_def.mp hx) hcne
  | msg :: rest, blocks, cur, hA, hC, hB, hD, hE => by
    rw [gbtgLoop]
    cases hp : processMsg fm fl mr lr msg with
    | none => exact gbtgLoop_invariant split fm fl mr lr rest blocks cur hA hC hB hD hE
    | some m =>
      dsimp only
      by_cases hcur : cur.isEmpty
      · rw [if_pos hcur]
        have hbe : blocks = [] := hE (List.isEmpty_iff.mp hcur)
        subst hbe
        exact gbtgLoop_invariant split fm fl mr lr rest [] [m]
          (by intro b hb; cases hb) (List.chain'_singleton _)
          (List.chain'_nil) (by intro bl hbl; cases hbl) (by intro h; cases h)
      · rw [if_neg hcur]
        have hcne : cur ≠ [] := by
          intro he
          exact hcur (by rw [he]; rfl)
        by_cases hgap : split < m.timestamp - lastTs cur
        · rw [if_pos hgap]
          refine gbtgLoop_invariant split fm fl mr lr rest (blocks ++ [cur]) [m]
            ?_ (List.chain'_singleton _) ?_ ?_ (by intro h; cases h)
          · intro b hb
            rcases List.mem_append.mp hb with h | h
            · exact hA b h
            · rw [List.mem_singleton.mp h]
              exact hC
          · rw [List.chain'_append]
            refine ⟨hB, List.chain'_singleton _, ?_⟩
            intro x hx y hy
            rw [List.head?_cons, Option.mem_some_iff] at hy
            subst hy
            exact hD x (Option.mem_def.mp hx) hcne
          · intro bl hbl _
            rw [List.getLast?_concat] at hbl
            rw [← Option.some.inj hbl]
            exact hgap
        · rw [if_neg hgap]
          refine gbtgLoop_invariant split fm fl mr lr rest blocks (cur ++ [m])
            hA ?_ hB ?_ (by intro h; exact absurd h (by simp [hcne]))
          · rw [withinOk, List.chain'_append]
            refine ⟨hC, List.chain'_singleton _, ?_⟩
            intro x hx y hy
            rw [List.head?_cons, Option.mem_some_iff] at hy
            subst hy
            rw [← lastTs_getLast (Option.mem_def.mp hx)]
            omega
          · intro bl hbl _
            have := hD bl hbl hcne
            rw [blockGapOk, blkHeadTs_append cur m hcne]
            exact this

/-- C3: in the Segmenter's output, within each block every pair of
consecutive messages (the comparison baseline always being the message last
appended to the block) has an elapsed time of at most `split_minutes`, and
the gap from the last message of one block to the first message of the next
strictly exceeds `split_minutes`. -/
theorem segmenter_invariant (messages : List PMsg) (split_minutes : Int)
    (filter_media filter_links : Bool)
    (media_replacement link_replacement : Option String) :
    (∀ b ∈ group_by_time_gap messages split_minutes filter_media filter_links
        media_replacement link_replacement, withinOk split_minutes b) ∧
      List.Chain' (blockGapOk split_minutes)
        (group_by_time_gap messages split_minutes filter_media filter_links
          media_replacement link_replacement) := by
  unfold group_by_time_gap
  by_cases h : messages.isEmpty
  · rw [if_pos h]
    exact ⟨(by intro b hb; cases hb), List.chain'_nil⟩
  · rw [if_neg h]
    exact gbtgLoop_invariant split_minutes filter_media filter_links
      media_replacement link_replacement messages [] []
      (by intro b hb; cases hb) List.chain'_nil List.chain'_nil
      (by intro bl hbl; cases hbl) (fun _ => rfl)

/-- C3 witness: the spec's concrete three-message scenario produces
gap-separated blocks. -/
theorem segmenter_invariant_witness :
    List.Chain' (blockGapOk 15)
      (group_by_time_gap
        [{ timestamp := 540, username := "Alice", message := "hi" },
         { timestamp := 541, username := "Bob", message := "hey" },
         { timestamp := 560, username := "Alice", message := "bye" }]
        15 true true none none) :=
  (segmenter_invariant
    [{ timestamp := 540, username := "Alice", message := "hi" },
     { timestamp := 541, username := "Bob", message := "hey" },
     { timestamp := 560, username := "Alice", message := "bye" }]
    15 true true none none).2

/-- Maximal-munch characterization of `takeWhile`/`dropWhile` on a
concatenation whose first part satisfies the predicate and whose second part
starts (if at all) with a failing character. -/
theorem takeWhile_exact (p : Char → Bool) :
    ∀ (l r : List Char), (∀ c ∈ l, p c = true) →
      (∀ c, r.head? = some c → p c = false) →
      (l ++ r).takeWhile p = l ∧ (l ++ r).dropWhile p = r
  | [], r, _, hr => by
    cases r with
    | nil => exact ⟨rfl, rfl⟩
    | cons c t =>
      have hc := hr c rfl
      exact ⟨by simp [List.takeWhile_cons, hc], by simp [List.dropWhile_cons, hc]⟩
  | c :: l, r, hl, hr => by
    have hc : p c = true := hl c (by simp)
    have ih := takeWhile_exact p l r (fun x hx => hl x (by simp [hx])) hr
    exact ⟨by simp [List.takeWhile_cons, hc, ih.1],
      by simp [List.dropWhile_cons, hc, ih.2]⟩

/-- Maximal-munch characterization of `span` on a concatenation. -/
theorem span_exact (p : Char → Bool) (l r : List Char)
    (hl : ∀ c ∈ l, p c = true)
    (hr : ∀ c, r.head? = some c → p c = false) :
    (l ++ r).span p = (l, r) := by
  rw [List.span_eq_take_drop, (takeWhile_exact p l r hl hr).1,
    (takeWhile_exact p l r hl hr).2]

/-- A decimal digit is not whitespace. -/
theorem not_pySpace_of_digit {c : Char} (h : isDigitCh c = true) :
    pySpace c = false := by
  cases hps : pySpace c with
  | false => rfl
  | true =>
    exfalso
    unfold pySpace at hps
    simp only [Bool.or_eq_true, beq_iff_eq] at hps
    rcases hps with ((((rfl | rfl) | rfl) | rfl) | rfl) | rfl <;>
      exact absurd h (by decide)

/-- The head of a digit field (followed by anything) is not whitespace. -/
theorem head_append_digit {a : List Char} (r : List Char)
    (ha : ∀ c ∈ a, isDigitCh c = true) (hne : a ≠ []) :
    ∀ c, (a ++ r).head? = some c → pySpace c = false := by
  cases a with
  | nil => exact absurd rfl hne
  | cons x t =>
    intro c hc
    rw [List.cons_append, List.head?_cons] at hc
    rw [← Option.some.inj hc]
    exact not_pySpace_of_digit (ha x (by simp))

/-- `reqSpanWin` on a well-formed concatenation. -/
theorem reqSpanWin_eq (p : Char → Bool) (lo hi : Nat) (a r : List Char)
    (ha : ∀ c ∈ a, p c = true) (hr : ∀ c, r.head? = some c → p c = false)
    (h1 : lo ≤ a.length) (h2 : a.length ≤ hi) :
    reqSpanWin p lo hi (a ++ r) = some (a, r) := by
  unfold reqSpanWin
  rw [span_exact p a r ha hr]
  exact if_pos ⟨h1, h2⟩

/-- `reqPlus` when the run is a single class character followed by a
non-class character. -/
theorem reqPlus_single (p : Char → Bool) (c : Char) (r : List Char)
    (hc : p c = true) (hr : ∀ x, r.head? = some x → p x = false) :
    reqPlus p (c :: r) = some ([c], r) := by
  unfold reqPlus
  rw [show c :: r = [c] ++ r from rfl, span_exact p [c] r (by simpa using hc) hr]
  rfl

/-- `reqChar` on its literal. -/
theorem reqChar_eq (c : Char) (r : List Char) : reqChar c (c :: r) = some r := by
  simp [reqChar]

/-- `ampmStep` on a well-formed tail. -/
theorem ampmStep_eq (ap : Char) (r : List Char) (hap : ap = 'A' ∨ ap = 'P') :
    ampmStep (ap :: 'M' :: r) = some (ap, r) := by
  unfold ampmStep
  exact if_pos hap

/-- `speakerStep` on a single space, a speaker field without colons that
does not start with whitespace, the colon and the rest. -/
theorem speakerStep_eq (speaker rest : List Char) (hs1 : speaker ≠ [])
    (hs2 : ∀ c, speaker.head? = some c → pySpace c = false)
    (hs3 : ∀ c ∈ speaker, c ≠ ':') :
    speakerStep (' ' :: (speaker ++ ':' :: rest)) = some (speaker, rest) := by
  cases speaker with
  | nil => exact absurd rfl hs1
  | cons s0 st =>
    unfold speakerStep
    rw [show (' ' :: ((s0 :: st) ++ ':' :: rest)) =
      [' '] ++ ((s0 :: st) ++ ':' :: rest) from rfl]
    rw [span_exact pySpace [' '] ((s0 :: st) ++ ':' :: rest) (by decide)
      (by intro c hc
          rw [List.cons_append, List.head?_cons] at hc
          rw [← Option.some.inj hc]
          exact hs2 s0 rfl)]
    dsimp only
    rw [span_exact (fun c => c != ':') (s0 :: st) (':' :: rest)
      (by intro c hc
          simpa using hs3 c hc)
      (by intro c hc
          rw [List.head?_cons] at hc
          rw [← Option.some.inj hc]
          decide)]
    simp

/-- `dropWhile` is idempotent. -/
theorem dropWhile_dropWhile (p : Char → Bool) (l : List Char) :
    (l.dropWhile p).dropWhile p = l.dropWhile p := by
  induction l with
  | nil => rfl
  | cons c t ih =>
    by_cases h : p c = true
    · simp [List.dropWhile_cons, h, ih]
    · simp [List.dropWhile_cons, h]

/-- Stripping is unaffected by first dropping leading whitespace. -/
theorem pyStripList_dropWhile (l : List Char) :
    pyStripList (l.dropWhile pySpace) = pyStripList l := by
  unfold pyStripList
  rw [dropWhile_dropWhile]

/-- `msgStep` on a single space followed by newline-free text: the capture
is the text minus its leading whitespace. -/
theorem msgStep_eq (text : List Char) (htext : '\n' ∉ text) :
    msgStep (' ' :: text) = some (text.dropWhile pySpace) := by
  unfold msgStep
  rw [List.span_eq_take_drop]
  have hsp : pySpace ' ' = true := by decide
  have htw : (' ' :: text).takeWhile pySpace =
      ' ' :: text.takeWhile pySpace := by
    simp [List.takeWhile_cons, hsp]
  have hdw : (' ' :: text).dropWhile pySpace = text.dropWhile pySpace := by
    simp [List.dropWhile_cons, hsp]
  rw [htw, hdw]
  dsimp only
  rw [if_neg (by simp)]
  unfold dotStarCapture
  rw [if_neg (fun hmem => htext ((List.dropWhile_sublist pySpace).mem hmem))]

/-- Evaluation of the embedded `parse_whatsapp_line` on a rendered header
line: under the structural side conditions of the header format the parse
reduces to the `strptime` validation of the date/time fields, with both
captures stripped. -/
theorem parseLineCore_render (mo da yr hr mi : List Char) (ap : Char)
    (speaker text : List Char)
    (hmo : (∀ c ∈ mo, isDigitCh c = true) ∧ 1 ≤ mo.length ∧ mo.length ≤ 2)
    (hda : (∀ c ∈ da, isDigitCh c = true) ∧ 1 ≤ da.length ∧ da.length ≤ 2)
    (hyr : (∀ c ∈ yr, isDigitCh c = true) ∧ 2 ≤ yr.length ∧ yr.length ≤ 4)
    (hhr : (∀ c ∈ hr, isDigitCh c = true) ∧ 1 ≤ hr.length ∧ hr.length ≤ 2)
    (hmi : (∀ c ∈ mi, isDigitCh c = true) ∧ mi.length = 2)
    (hap : ap = 'A' ∨ ap = 'P')
    (hs1 : speaker ≠ [])
    (hs2 : ∀ c, speaker.head? = some c → pySpace c = false)
    (hs3 : ∀ c ∈ speaker, c ≠ ':')
    (htext : '\n' ∉ text) :
    parseLineCore (renderLine mo da yr hr mi ap speaker text) =
      if strptimeOk mo da yr hr mi then
        some { timestamp := literalStamp mo da yr hr mi ap,
               username := ⟨pyStripList speaker⟩,
               message := ⟨pyStripList text⟩ }
      else none := by
  have hapf : pySpace ap = false := by rcases hap with rfl | rfl <;> decide
  have e1 := reqSpanWin_eq isDigitCh 1 2 mo
    ('/' :: (da ++ '/' :: (yr ++ ',' :: ' ' :: (hr ++ ':' :: (mi ++ ' ' ::
      ap :: 'M' :: ' ' :: '-' :: ' ' :: (speaker ++ ':' :: ' ' :: text))))))
    hmo.1 (fun c hc => by cases hc; decide) hmo.2.1 hmo.2.2
  have e3 := reqSpanWin_eq isDigitCh 1 2 da
    ('/' :: (yr ++ ',' :: ' ' :: (hr ++ ':' :: (mi ++ ' ' ::
      ap :: 'M' :: ' ' :: '-' :: ' ' :: (speaker ++ ':' :: ' ' :: text)))))
    hda.1 (fun c hc => by cases hc; decide) hda.2.1 hda.2.2
  have e5 := reqSpanWin_eq isDigitCh 2 4 yr
    (',' :: ' ' :: (hr ++ ':' :: (mi ++ ' ' ::
      ap :: 'M' :: ' ' :: '-' :: ' ' :: (speaker ++ ':' :: ' ' :: text))))
    hyr.1 (fun c hc => by cases hc; decide) hyr.2.1 hyr.2.2
  have e7 := reqPlus_single pySpace ' '
    (hr ++ ':' :: (mi ++ ' ' ::
      ap :: 'M' :: ' ' :: '-' :: ' ' :: (speaker ++ ':' :: ' ' :: text)))
    (by decide)
    (head_append_digit _ hhr.1 (by
      intro h
      rw [h] at hhr
      exact absurd hhr.2.1 (by decide)))
  have e8 := reqSpanWin_eq isDigitCh 1 2 hr
    (':' :: (mi ++ ' ' ::
      ap :: 'M' :: ' ' :: '-' :: ' ' :: (speaker ++ ':' :: ' ' :: text)))
    hhr.1 (fun c hc => by cases hc; decide) hhr.2.1 hhr.2.2
  have e10 := reqSpanWin_eq isDigitCh 2 2 mi
    (' ' :: ap :: 'M' :: ' ' :: '-' :: ' ' :: (speaker ++ ':' :: ' ' :: text))
    hmi.1 (fun c hc => by cases hc; decide) (le_of_eq hmi.2.symm)
    (le_of_eq hmi.2)
  have e11 := reqPlus_single pySpace ' '
    (ap :: 'M' :: ' ' :: '-' :: ' ' :: (speaker ++ ':' :: ' ' :: text))
    (by decide)
    (fun x hx => by
      rw [List.head?_cons] at hx
      rw [← Option.some.inj hx]
      exact hapf)
  have e12 := ampmStep_eq ap
    (' ' :: '-' :: ' ' :: (speaker ++ ':' :: ' ' :: text)) hap
  have e13 := reqPlus_single pySpace ' '
    ('-' :: ' ' :: (speaker ++ ':' :: ' ' :: text))
    (by decide) (fun x hx => by cases hx; decide)
  have e15 := speakerStep_eq speaker (' ' :: text) hs1 hs2 hs3
  have e16 := msgStep_eq text htext
  unfold parseLineCore renderLine
  simp only [e1, e3, e5, e7, e8, e10, e11, e12, e13, e15, e16, reqChar_eq,
    pyStripList_dropWhile]
  rfl

/-- C2 (amended): for every valid header line `M/D/YY, H:MM AM|PM -
Speaker: Text`, when the date/time fields pass `strptime`'s validation —
which requires a TWO-digit year — the Line Parser returns a message whose
speaker and text equal the captured fields with surrounding whitespace
stripped and whose timestamp is the literal date/time encoded in the line
(two-digit years read through the 1969-2068 pivot); a 3- or 4-digit year
field matches the header pattern but fails date parsing, and any `strptime`
failure yields `none` rather than an exception.  (The original claim also
asserted success for 4-digit years; that part is refuted by the
counterexample.) -/
theorem line_recovery (mo da yr hr mi : List Char) (ap : Char)
    (speaker text : List Char)
    (hmo : (∀ c ∈ mo, isDigitCh c = true) ∧ 1 ≤ mo.length ∧ mo.length ≤ 2)
    (hda : (∀ c ∈ da, isDigitCh c = true) ∧ 1 ≤ da.length ∧ da.length ≤ 2)
    (hyr : (∀ c ∈ yr, isDigitCh c = true) ∧ 2 ≤ yr.length ∧ yr.length ≤ 4)
    (hhr : (∀ c ∈ hr, isDigitCh c = true) ∧ 1 ≤ hr.length ∧ hr.length ≤ 2)
    (hmi : (∀ c ∈ mi, isDigitCh c = true) ∧ mi.length = 2)
    (hap : ap = 'A' ∨ ap = 'P')
    (hs1 : speaker ≠ [])
    (hs2 : ∀ c, speaker.head? = some c → pySpace c = false)
    (hs3 : ∀ c ∈ speaker, c ≠ ':')
    (htext : '\n' ∉ text) :
    (strptimeOk mo da yr hr mi = true →
      parse_whatsapp_line ⟨renderLine mo da yr hr mi ap speaker text⟩ =
        some { timestamp := literalStamp mo da yr hr mi ap,
               username := pyStrip ⟨speaker⟩, message := pyStrip ⟨text⟩ }) ∧
    (3 ≤ yr.length →
      parse_whatsapp_line ⟨renderLine mo da yr hr mi ap speaker text⟩ =
        none) ∧
    (strptimeOk mo da yr hr mi = false →
      parse_whatsapp_line ⟨renderLine mo da yr hr mi ap speaker text⟩ =
        none) := by
  have R := parseLineCore_render mo da yr hr mi ap speaker text
    hmo hda hyr hhr hmi hap hs1 hs2 hs3 htext
  have hparse : parse_whatsapp_line ⟨renderLine mo da yr hr mi ap speaker
      text⟩ = parseLineCore (renderLine mo da yr hr mi ap speaker text) := rfl
  refine ⟨?_, ?_, ?_⟩
  · intro hok
    rw [hparse, R, if_pos hok]
    rfl
  · intro hlen
    have hfail : strptimeOk mo da yr hr mi = false := by
      cases hsk : strptimeOk mo da yr hr mi with
      | false => rfl
      | true =>
        exfalso
        have := of_decide_eq_true hsk
        omega
    rw [hparse, R, if_neg (by rw [hfail]; exact Bool.false_ne_true)]
  · intro hfail
    rw [hparse, R, if_neg (by rw [hfail]; exact Bool.false_ne_true)]

/-- C2 witness: `3/1/24, 9:00 AM - Alice: hi` parses to the expected
message. -/
theorem line_recovery_witness :
    parse_whatsapp_line
        ⟨renderLine ['3'] ['1'] ['2', '4'] ['9'] ['0', '0'] 'A'
          ['A', 'l', 'i', 'c', 'e'] ['h', 'i']⟩ =
      some { timestamp :=
               literalStamp ['3'] ['1'] ['2', '4'] ['9'] ['0', '0'] 'A',
             username := pyStrip ⟨['A', 'l', 'i', 'c', 'e']⟩,
             message := pyStrip ⟨['h', 'i']⟩ } :=
  (line_recovery ['3'] ['1'] ['2', '4'] ['9'] ['0', '0'] 'A'
    ['A', 'l', 'i', 'c', 'e'] ['h', 'i'] (by decide) (by decide) (by decide)
    (by decide) (by decide) (by decide) (by decide)
    (fun c hc => by cases hc; decide) (by decide) (by decide)).1 (by decide)

/-- C2 counterexample: a well-formed header line with a 4-digit year — which
the claim says the parser recovers — matches the header pattern but fails
`strptime`'s two-digit `%y`, so the parser returns `none` instead of a
message. -/
theorem line_recovery_counterexample :
    parse_whatsapp_line "3/1/2024, 9:00 AM - Alice: hi" = none := by rfl

/-- All-whitespace lists strip to the empty list and vice versa. -/
theorem pyStripList_nil (l : List Char) (h : pyStripList l = []) :
    ∀ c ∈ l, pySpace c = true := by
  unfold pyStripList at h
  rw [List.reverse_eq_nil_iff, List.dropWhile_eq_nil_iff] at h
  intro c hc
  rw [← List.takeWhile_append_dropWhile (p := pySpace) (l := l)] at hc
  rcases List.mem_append.mp hc with h1 | h1
  · exact List.mem_takeWhile_imp h1
  · exact h c (List.mem_reverse.mpr h1)

/-- C4 (amended): a Message produced by the Line Parser has a non-empty body
whenever the line's text field contains a non-whitespace character; a header
line whose text field is blank parses successfully with an *empty* body (see
the counterexample), so non-emptiness does not hold unconditionally at
creation. -/
theorem parsed_body_nonempty (mo da yr hr mi : List Char) (ap : Char)
    (speaker text : List Char)
    (hmo : (∀ c ∈ mo, isDigitCh c = true) ∧ 1 ≤ mo.length ∧ mo.length ≤ 2)
    (hda : (∀ c ∈ da, isDigitCh c = true) ∧ 1 ≤ da.length ∧ da.length ≤ 2)
    (hyr : (∀ c ∈ yr, isDigitCh c = true) ∧ 2 ≤ yr.length ∧ yr.length ≤ 4)
    (hhr : (∀ c ∈ hr, isDigitCh c = true) ∧ 1 ≤ hr.length ∧ hr.length ≤ 2)
    (hmi : (∀ c ∈ mi, isDigitCh c = true) ∧ mi.length = 2)
    (hap : ap = 'A' ∨ ap = 'P')
    (hs1 : speaker ≠ [])
    (hs2 : ∀ c, speaker.head? = some c → pySpace c = false)
    (hs3 : ∀ c ∈ speaker, c ≠ ':')
    (htext : '\n' ∉ text)
    (hok : strptimeOk mo da yr hr mi = true)
    (hnw : ∃ c ∈ text, pySpace c = false) :
    ∃ m, parse_whatsapp_line ⟨renderLine mo da yr hr mi ap speaker text⟩ =
        some m ∧ m.message ≠ "" := by
  have R := parseLineCore_render mo da yr hr mi ap speaker text
    hmo hda hyr hhr hmi hap hs1 hs2 hs3 htext
  rw [if_pos hok] at R
  refine ⟨_, R, ?_⟩
  intro habs
  have hnil : pyStripList text = [] := congrArg String.data habs
  rcases hnw with ⟨c, hc, hcf⟩
  rw [pyStripList_nil text hnil c hc] at hcf
  cases hcf

/-- C4 witness: a line with non-blank text yields a non-empty body. -/
theorem parsed_body_nonempty_witness :
    ∃ m, parse_whatsapp_line
        ⟨renderLine ['1'] ['1'] ['2', '1'] ['1'] ['0', '0'] 'P'
          ['B', 'o', 'b'] ['h', 'i']⟩ = some m ∧ m.message ≠ "" :=
  parsed_body_nonempty ['1'] ['1'] ['2', '1'] ['1'] ['0', '0'] 'P'
    ['B', 'o', 'b'] ['h', 'i'] (by decide) (by decide) (by decide)
    (by decide) (by decide) (by decide) (by decide)
    (fun c hc => by cases hc; decide) (by decide) (by decide) (by decide)
    ⟨'h', by decide, by decide⟩

/-- C4 counterexample: the Line Parser produces a Message with an **empty**
body on a header line whose text field is blank, refuting the invariant
"body is non-empty at creation". -/
theorem parsed_body_nonempty_counterexample :
    ∃ m, parse_whatsapp_line "1/1/21, 1:00 PM - Alice: " = some m ∧
      m.message = "" :=
  ⟨{ timestamp := { year := 2021, month := 1, day := 1, hour := 13,
                    minute := 0 },
     username := "Alice", message := "" }, by rfl, rfl⟩

/-! ### The serializer's output as a character stream -/

/-- `joinNl` realizes `charsOfLines`. -/
theorem joinNl_data : ∀ ls : List String, (joinNl ls).data = charsOfLines ls
  | [] => rfl
  | [_] => rfl
  | s :: s' :: rest => by
    show (s ++ "\n" ++ joinNl (s' :: rest)).data = _
    rw [String.data_append, String.data_append, joinNl_data (s' :: rest)]
    show (s.data ++ ['\n']) ++ charsOfLines (s' :: rest) = _
    simp [charsOfLines]

/-- Joining distributes over appending non-empty line lists. -/
theorem charsOfLines_append :
    ∀ (l1 l2 : List String), l1 ≠ [] → l2 ≠ [] →
      charsOfLines (l1 ++ l2) = charsOfLines l1 ++ '\n' :: charsOfLines l2
  | [], _, h, _ => absurd rfl h
  | [s], l2, _, h2 => by
    cases l2 with
    | nil => exact absurd rfl h2
    | cons b t => rfl
  | s :: s' :: rest, l2, _, h2 => by
    have ih := charsOfLines_append (s' :: rest) l2 (by simp) h2
    show s.data ++ '\n' :: charsOfLines (s' :: rest ++ l2) = _
    rw [ih]
    simp [charsOfLines]

/-- The character stream of one key-value line. -/
theorem pairLine_data (k v : String) :
    (pairLine k v).data = pairChars (k, v) := by
  unfold pairLine pairChars json_dumps
  simp [String.data_append, sp6]

/-- Splitting off the first of at least two lines. -/
theorem charsOfLines_cons_ne (a : String) (l : List String) (h : l ≠ []) :
    charsOfLines (a :: l) = a.data ++ '\n' :: charsOfLines l := by
  cases l with
  | nil => exact absurd rfl h
  | cons x xs => rfl

/-- The pair lines of a non-empty conversation are never empty. -/
theorem pairLines_ne_nil (p : String × String) (ps : Conv) :
    pairLines (p :: ps) ≠ [] := by
  cases ps <;> simp [pairLines]

/-- The pair lines of a non-empty conversation produce the first pair's
characters followed by the tail stream, with the closing line appended. -/
theorem pairLines_chars :
    ∀ (p : String × String) (ps : Conv) (closer : String),
      charsOfLines (pairLines (p :: ps) ++ [closer]) =
        pairChars p ++ (pairsTailChars ps ++ ('\n' :: closer.data))
  | p, [], closer => by
    rw [show pairLines [p] ++ [closer] = [pairLine p.1 p.2, closer] from rfl]
    rw [show charsOfLines [pairLine p.1 p.2, closer] =
      (pairLine p.1 p.2).data ++ '\n' :: closer.data from rfl]
    rw [pairLine_data]
    simp [pairsTailChars]
  | p, q :: qs, closer => by
    have ih := pairLines_chars q qs closer
    rw [show pairLines (p :: q :: qs) ++ [closer] =
      (pairLine p.1 p.2 ++ ",") :: (pairLines (q :: qs) ++ [closer])
      from rfl]
    rw [charsOfLines_cons_ne _ _ (by simp)]
    rw [ih, String.data_append, pairLine_data]
    simp [pairsTailChars]

/-- The character stream of one conversation object's lines. -/
theorem convLines_chars (comma : Bool) (conv : Conv) :
    charsOfLines (convLines comma conv) =
      convObjChars conv ++ (if comma then [','] else []) := by
  cases comma with
  | false =>
    cases conv with
    | nil => rfl
    | cons p ps =>
      rw [show convLines false (p :: ps) =
        "    \x7b" :: (pairLines (p :: ps) ++ ["    \x7d"]) from rfl]
      rw [charsOfLines_cons_ne _ _ (by simp)]
      rw [pairLines_chars p ps "    \x7d"]
      simp only [convObjChars, if_neg Bool.false_ne_true, List.append_nil]
      rfl
  | true =>
    cases conv with
    | nil => rfl
    | cons p ps =>
      rw [show convLines true (p :: ps) =
        "    \x7b" :: (pairLines (p :: ps) ++ ["    \x7d,"]) from rfl]
      rw [charsOfLines_cons_ne _ _ (by simp)]
      rw [pairLines_chars p ps "    \x7d,"]
      simp only [convObjChars, if_pos rfl, List.append_assoc,
        List.cons_append, List.nil_append]
      rfl

/-- The lines of a non-empty conversation list are never empty. -/
theorem convsLines_ne_nil (c : Conv) (cs : List Conv) :
    convsLines (c :: cs) ≠ [] := by
  cases cs <;> simp [convsLines, convLines]

/-- The character stream of all conversation objects followed by the two
closing lines. -/
theorem convsLines_chars :
    ∀ (c : Conv) (cs : List Conv),
      charsOfLines (convsLines (c :: cs) ++ ["  ]", "\x7d"]) =
        convObjChars c ++ (arrTailChars cs ++
          ('\n' :: (sp2 ++ (']' :: '\n' :: [cbrace]))))
  | c, [] => by
    rw [show convsLines [c] = convLines false c from rfl]
    rw [charsOfLines_append (convLines false c) ["  ]", "\x7d"]
      (by simp [convLines]) (by simp)]
    rw [convLines_chars false c]
    rw [show charsOfLines ["  ]", "\x7d"] =
      "  ]".data ++ '\n' :: "\x7d".data from rfl]
    simp only [arrTailChars, if_neg Bool.false_ne_true, List.append_nil,
      List.nil_append, List.append_assoc]
    rfl
  | c, c' :: cs' => by
    have ih := convsLines_chars c' cs'
    rw [show convsLines (c :: c' :: cs') =
      convLines true c ++ convsLines (c' :: cs') from rfl]
    rw [List.append_assoc]
    rw [charsOfLines_append (convLines true c) _
      (by simp [convLines])
      (by
        intro habs
        exact convsLines_ne_nil c' cs'
          (List.append_eq_nil.mp habs).1)]
    rw [ih, convLines_chars true c]
    simp [arrTailChars]

/-- The serializer's output, as the canonical character stream. -/
theorem serialize_data (conversations : List Conv) :
    (serialize_to_json_with_duplicate_keys conversations).data =
      docChars conversations := by
  unfold serialize_to_json_with_duplicate_keys
  rw [joinNl_data]
  cases conversations with
  | nil => rfl
  | cons c cs =>
    show charsOfLines ("\x7b" :: ("  \"example_conversation\": [" ::
      (convsLines (c :: cs) ++ ["  ]", "\x7d"]))) = docChars (c :: cs)
    rw [charsOfLines_cons_ne _ _ (by simp)]
    rw [charsOfLines_cons_ne _ _ (by
      intro habs
      exact convsLines_ne_nil c cs (List.append_eq_nil.mp habs).1)]
    rw [convsLines_chars c cs]
    simp only [docChars, arrChars, List.append_assoc, List.cons_append,
      List.nil_append]
    rfl

/-! ### Reading back the serialized stream -/

/-- String-literal bodies made of plain characters read back verbatim. -/
theorem parseStringBody_plain :
    ∀ (k rest : List Char), (∀ c ∈ k, plainChar c = true) →
      parseStringBody (k ++ '"' :: rest) = some (k, rest)
  | [], rest, _ => by
    rw [parseStringBody.eq_def]
    simp
  | c :: k, rest, h => by
    have hc := h c (by simp)
    simp only [plainChar, Bool.and_eq_true, bne_iff_ne, ne_eq,
      Nat.ble_eq] at hc
    have ih := parseStringBody_plain k rest (fun x hx => h x (by simp [hx]))
    show parseStringBody (c :: (k ++ '"' :: rest)) = _
    rw [parseStringBody.eq_def]
    simp only [if_neg hc.1.1, if_neg hc.1.2,
      if_neg (show ¬ c.toNat < 32 from by omega), ih]
    rfl

/-- The four lowercase hex digits of a control character decode back. -/
theorem hex_decode : ∀ n, n < 32 →
    hexVal (hexDigit (n / 4096 % 16)) = some 0 ∧
    hexVal (hexDigit (n / 256 % 16)) = some 0 ∧
    hexVal (hexDigit (n / 16 % 16)) = some (n / 16) ∧
    hexVal (hexDigit (n % 16)) = some (n % 16) := by decide

/-- Escaped string-literal bodies read back to the original characters. -/
theorem parseStringBody_esc :
    ∀ (v rest : List Char),
      parseStringBody (escBody v ++ '"' :: rest) = some (v, rest)
  | [], rest => by
    rw [show escBody [] ++ '"' :: rest = '"' :: rest from rfl]
    rw [parseStringBody.eq_def]
    simp
  | c :: v, rest => by
    have ih := parseStringBody_esc v rest
    show parseStringBody ((jsonEscapeChar c ++ escBody v) ++ '"' :: rest) = _
    rw [List.append_assoc]
    by_cases h1 : c = '"'
    · subst h1
      show parseStringBody ('\\' :: '"' :: (escBody v ++ '"' :: rest)) = _
      rw [parseStringBody.eq_def]
      simp [escDecode, ih]
    · by_cases h2 : c = '\\'
      · subst h2
        show parseStringBody ('\\' :: '\\' :: (escBody v ++ '"' :: rest)) = _
        rw [parseStringBody.eq_def]
        simp [escDecode, ih]
      · by_cases h3 : c = '\n'
        · subst h3
          show parseStringBody ('\\' :: 'n' :: (escBody v ++ '"' :: rest)) = _
          rw [parseStringBody.eq_def]
          simp [escDecode, ih]
        · by_cases h4 : c = '\r'
          · subst h4
            show parseStringBody ('\\' :: 'r' ::
              (escBody v ++ '"' :: rest)) = _
            rw [parseStringBody.eq_def]
            simp [escDecode, ih]
          · by_cases h5 : c = '\t'
            · subst h5
              show parseStringBody ('\\' :: 't' ::
                (escBody v ++ '"' :: rest)) = _
              rw [parseStringBody.eq_def]
              simp [escDecode, ih]
            · by_cases h6 : c = Char.ofNat 8
              · subst h6
                show parseStringBody ('\\' :: 'b' ::
                  (escBody v ++ '"' :: rest)) = _
                rw [parseStringBody.eq_def]
                simp [escDecode, ih]
              · by_cases h7 : c = Char.ofNat 12
                · subst h7
                  show parseStringBody ('\\' :: 'f' ::
                    (escBody v ++ '"' :: rest)) = _
                  rw [parseStringBody.eq_def]
                  simp [escDecode, ih]
                · by_cases h8 : c.toNat < 32
                  · have e : jsonEscapeChar c =
                        '\\' :: 'u' :: hex4 c.toNat := by
                      unfold jsonEscapeChar
                      rw [if_neg (by simp [h1]), if_neg (by simp [h2]),
                        if_neg (by simp [h3]), if_neg (by simp [h4]),
                        if_neg (by simp [h5]), if_neg (by simp [h6]),
                        if_neg (by simp [h7]), if_pos h8]
                    rw [e]
                    show parseStringBody ('\\' :: ('u' ::
                      (hexDigit (c.toNat / 4096 % 16) ::
                       hexDigit (c.toNat / 256 % 16) ::
                       hexDigit (c.toNat / 16 % 16) ::
                       hexDigit (c.toNat % 16) ::
                       (escBody v ++ '"' :: rest)))) = _
                    rw [parseStringBody.eq_def]
                    rcases hex_decode c.toNat h8 with ⟨e1, e2, e3, e4⟩
                    simp only [e1, e2, e3, e4, ih]
                    simp only [if_neg (show ¬ ('\\' = '"') from by decide),
                      if_pos rfl]
                    rw [show 4096 * 0 + 256 * 0 + 16 * (c.toNat / 16) +
                      c.toNat % 16 = c.toNat from by omega]
                    rw [Char.ofNat_toNat]
                    rfl
                  · have e : jsonEscapeChar c = [c] := by
                      unfold jsonEscapeChar
                      rw [if_neg (by simp [h1]), if_neg (by simp [h2]),
                        if_neg (by simp [h3]), if_neg (by simp [h4]),
                        if_neg (by simp [h5]), if_neg (by simp [h6]),
                        if_neg (by simp [h7]), if_neg h8]
                    rw [e]
                    show parseStringBody (c ::
                      (escBody v ++ '"' :: rest)) = _
                    rw [parseStringBody.eq_def]
                    simp only [if_neg h1, if_neg h2, if_neg h8, ih]
                    rfl

/-- One-step unfolding of `parsePair` at positive fuel. -/
theorem parsePair_succ (fuel : Nat) (cs : List Char) :
    parsePair (fuel + 1) cs =
      match skipWs cs with
      | [] => none
      | c :: rest =>
        if c = '"' then
          match parseStringBody rest with
          | some (k, r) =>
            (match skipWs r with
             | ':' :: r2 =>
               (match parseVal fuel r2 with
                | some (v, r3) => some ((⟨k⟩, v), r3)
                | none => none)
             | _ => none)
          | none => none
        else none := rfl

theorem parseVal_succ (fuel : Nat) (cs : List Char) :
    parseVal (fuel + 1) cs =
      match skipWs cs with
      | [] => none
      | c :: rest =>
        if c = '"' then
          match parseStringBody rest with
          | some (s, r) => some (JVal.str ⟨s⟩, r)
          | none => none
        else if c = '[' then
          match skipWs rest with
          | [] => none
          | c2 :: r2 =>
            if c2 = ']' then some (JVal.arr [], r2)
            else
              match parseVal fuel rest with
              | some (v, r) => parseArrTail fuel [v] r
              | none => none
        else if c = obrace then
          match skipWs rest with
          | [] => none
          | c2 :: r2 =>
            if c2 = cbrace then some (JVal.obj [], r2)
            else
              match parsePair fuel rest with
              | some (kv, r) => parseObjTail fuel [kv] r
              | none => none
        else none := rfl

theorem parseArrTail_succ (fuel : Nat) (acc : List JVal) (cs : List Char) :
    parseArrTail (fuel + 1) acc cs =
      match skipWs cs with
      | [] => none
      | c :: r =>
        if c = ']' then some (JVal.arr acc, r)
        else if c = ',' then
          match parseVal fuel r with
          | some (v, r2) => parseArrTail fuel (acc ++ [v]) r2
          | none => none
        else none := rfl

theorem parseObjTail_succ (fuel : Nat) (acc : List (String × JVal))
    (cs : List Char) :
    parseObjTail (fuel + 1) acc cs =
      match skipWs cs with
      | [] => none
      | c :: r =>
        if c = cbrace then some (JVal.obj acc, r)
        else if c = ',' then
          match parsePair fuel r with
          | some (kv, r2) => parseObjTail fuel (acc ++ [kv]) r2
          | none => none
        else none := rfl
/-- Whitespace skipping consumes a whitespace head character. -/
theorem skipWs_ws {c : Char} (l : List Char) (h : jsonWs c = true) :
    skipWs (c :: l) = skipWs l := by simp [skipWs, List.dropWhile_cons, h]
theorem skipWs_stop {c : Char} (l : List Char) (h : jsonWs c = false) :
    skipWs (c :: l) = c :: l := by simp [skipWs, List.dropWhile_cons, h]

theorem parsePair_chars (p : String × String) (rest : List Char) (fuel : Nat)
    (hk : ∀ c ∈ p.1.data, plainChar c = true) :
    parsePair (fuel + 2) ('\n' :: (pairChars p ++ rest)) =
      some ((p.1, JVal.str p.2), rest) := by
  obtain ⟨k, v⟩ := p
  simp only [pairChars, sp6, List.append_assoc, List.cons_append,
    List.nil_append, List.singleton_append]
  rw [show (parsePair (fuel + 2) ('\n' :: ' ' :: ' ' :: ' ' :: ' ' :: ' ' :: ' ' :: '"' ::
      (k.data ++ '"' :: ':' :: ' ' :: '"' :: (escBody v.data ++ '"' :: rest)))) =
    parsePair (fuel + 1 + 1) ('\n' :: ' ' :: ' ' :: ' ' :: ' ' :: ' ' :: ' ' :: '"' ::
      (k.data ++ '"' :: ':' :: ' ' :: '"' :: (escBody v.data ++ '"' :: rest))) from rfl]
  rw [parsePair_succ]
  rw [skipWs_ws _ (by decide), skipWs_ws _ (by decide), skipWs_ws _ (by decide),
    skipWs_ws _ (by decide), skipWs_ws _ (by decide), skipWs_ws _ (by decide),
    skipWs_ws _ (by decide), skipWs_stop _ (by decide)]
  dsimp only
  rw [if_pos rfl]
  rw [parseStringBody_plain k.data _ hk]
  dsimp only
  rw [skipWs_stop _ (by decide)]
  show (match parseVal (fuel + 1) (' ' :: ('"' :: (escBody v.data ++ '"' :: rest))) with
    | some (v', r3) => some ((String.mk k.data, v'), r3)
    | none => none) = _
  rw [parseVal_succ]
  rw [skipWs_ws _ (by decide), skipWs_stop _ (by decide)]
  dsimp only
  rw [if_pos rfl]
  rw [parseStringBody_esc v.data rest]

/-- Reading back the remaining members of a conversation object. -/
theorem parseObjTail_chars :
    ∀ (ps : Conv) (acc : List (String × JVal)) (rest : List Char) (fuel : Nat),
      (∀ p ∈ ps, ∀ c ∈ p.1.data, plainChar c = true) →
      parseObjTail (fuel + 2 * ps.length + 2) acc
        (pairsTailChars ps ++ ('\n' :: (sp4 ++ (cbrace :: rest)))) =
      some (JVal.obj (acc ++ ps.map (fun p => (p.1, JVal.str p.2))), rest)
  | [], acc, rest, fuel, _ => by
    show parseObjTail (fuel + 2 * [].length + 1 + 1) acc
      ('\n' :: (sp4 ++ (cbrace :: rest))) = _
    rw [parseObjTail_succ]
    rw [skipWs_ws _ (by decide)]
    rw [show sp4 ++ (cbrace :: rest) =
      ' ' :: ' ' :: ' ' :: ' ' :: cbrace :: rest from rfl]
    rw [skipWs_ws _ (by decide), skipWs_ws _ (by decide),
      skipWs_ws _ (by decide), skipWs_ws _ (by decide),
      skipWs_stop _ (by decide)]
    dsimp only
    rw [if_pos rfl]
    simp
  | p :: ps, acc, rest, fuel, h => by
    have hk := h p (by simp)
    have ih := parseObjTail_chars ps (acc ++ [(p.1, JVal.str p.2)]) rest
      (fuel + 1) (fun q hq => h q (by simp [hq]))
    rw [show pairsTailChars (p :: ps) ++ ('\n' :: (sp4 ++ (cbrace :: rest))) =
      ',' :: '\n' :: (pairChars p ++ (pairsTailChars ps ++
        ('\n' :: (sp4 ++ (cbrace :: rest))))) from by
      simp [pairsTailChars]]
    rw [show fuel + 2 * (p :: ps).length + 2 =
      ((fuel + 2 * ps.length + 1) + 2) + 1 from by
      simp [List.length_cons]; ring]
    rw [parseObjTail_succ]
    rw [skipWs_stop _ (by decide)]
    dsimp only
    rw [if_neg (by decide), if_pos rfl]
    rw [parsePair_chars p _ _ hk]
    dsimp only
    rw [show (fuel + 2 * ps.length + 1) + 2 =
      (fuel + 1) + 2 * ps.length + 2 from by ring]
    rw [ih]
    simp

/-- Whitespace skipping exposes the opening quote of a key-value line. -/
theorem skipWs_pairChars (p : String × String) (X : List Char) :
    skipWs ('\n' :: (pairChars p ++ X)) =
      '"' :: (p.1.data ++ '"' :: ':' :: ' ' :: '"' ::
        (escBody p.2.data ++ ('"' :: X))) := by
  simp only [pairChars, sp6, List.cons_append, List.append_assoc,
    List.nil_append, List.singleton_append]
  rw [skipWs_ws _ (by decide), skipWs_ws _ (by decide), skipWs_ws _ (by decide),
    skipWs_ws _ (by decide), skipWs_ws _ (by decide), skipWs_ws _ (by decide),
    skipWs_ws _ (by decide), skipWs_stop _ (by decide)]

/-- Reading back one conversation object. -/
theorem parseVal_obj (conv : Conv) (rest : List Char) (fuel : Nat)
    (h : ∀ p ∈ conv, ∀ c ∈ p.1.data, plainChar c = true) :
    parseVal (fuel + 2 * conv.length + 2)
      ('\n' :: (convObjChars conv ++ rest)) = some (convJ conv, rest) := by
  cases conv with
  | nil =>
    rw [show convObjChars [] ++ rest = ' ' :: ' ' :: ' ' :: ' ' :: obrace ::
      '\n' :: ' ' :: ' ' :: ' ' :: ' ' :: cbrace :: rest from by
      simp [convObjChars, sp4]]
    show parseVal (fuel + 2 * ([] : Conv).length + 1 + 1) _ = _
    rw [parseVal_succ]
    rw [skipWs_ws _ (by decide), skipWs_ws _ (by decide),
      skipWs_ws _ (by decide), skipWs_ws _ (by decide),
      skipWs_ws _ (by decide), skipWs_stop _ (by decide)]
    dsimp only
    rw [if_neg (by decide), if_neg (by decide), if_pos rfl]
    rw [skipWs_ws _ (by decide), skipWs_ws _ (by decide),
      skipWs_ws _ (by decide), skipWs_ws _ (by decide),
      skipWs_ws _ (by decide), skipWs_stop _ (by decide)]
    dsimp only
    rw [if_pos rfl]
    rfl
  | cons p ps =>
    have hk := h p (by simp)
    rw [show convObjChars (p :: ps) ++ rest =
      ' ' :: ' ' :: ' ' :: ' ' :: obrace ::
        ('\n' :: (pairChars p ++ (pairsTailChars ps ++
          ('\n' :: (sp4 ++ (cbrace :: rest)))))) from by
      simp [convObjChars, sp4]]
    rw [show fuel + 2 * (p :: ps).length + 2 =
      ((fuel + 2 * ps.length + 3)) + 1 from by
      simp [List.length_cons]; ring]
    rw [parseVal_succ]
    rw [skipWs_ws _ (by decide), skipWs_ws _ (by decide),
      skipWs_ws _ (by decide), skipWs_ws _ (by decide),
      skipWs_ws _ (by decide), skipWs_stop _ (by decide)]
    dsimp only
    rw [if_neg (by decide), if_neg (by decide), if_pos rfl]
    rw [skipWs_pairChars]
    dsimp only
    rw [if_neg (by decide)]
    rw [show fuel + 2 * ps.length + 3 = (fuel + 2 * ps.length + 1) + 2
      from by ring]
    rw [parsePair_chars p _ _ hk]
    dsimp only
    rw [show (fuel + 2 * ps.length + 1) + 2 =
      (fuel + 1) + 2 * ps.length + 2 from by ring]
    rw [parseObjTail_chars ps [(p.1, JVal.str p.2)] rest (fuel + 1)
      (fun q hq => h q (by simp [hq]))]
    simp [convJ]

/-- Reading back the remaining conversation objects of the array. -/
theorem parseArrTail_chars :
    ∀ (convs : List Conv) (acc : List JVal) (rest : List Char) (fuel : Nat),
      (∀ conv ∈ convs, ∀ p ∈ conv, ∀ c ∈ p.1.data, plainChar c = true) →
      parseArrTail (fuel + needA convs) acc
        (arrTailChars convs ++ ('\n' :: (sp2 ++ (']' :: rest)))) =
      some (JVal.arr (acc ++ convs.map convJ), rest)
  | [], acc, rest, fuel, _ => by
    rw [show arrTailChars [] ++ ('\n' :: (sp2 ++ (']' :: rest))) =
      '\n' :: ' ' :: ' ' :: ']' :: rest from by simp [arrTailChars, sp2]]
    show parseArrTail (fuel + 1) acc _ = _
    rw [parseArrTail_succ]
    rw [skipWs_ws _ (by decide), skipWs_ws _ (by decide),
      skipWs_ws _ (by decide), skipWs_stop _ (by decide)]
    dsimp only
    rw [if_pos rfl]
    simp
  | c :: cs, acc, rest, fuel, h => by
    have ih := parseArrTail_chars cs (acc ++ [convJ c]) rest
      (fuel + 2 * c.length + 2) (fun q hq => h q (by simp [hq]))
    rw [show arrTailChars (c :: cs) ++ ('\n' :: (sp2 ++ (']' :: rest))) =
      ',' :: '\n' :: (convObjChars c ++ (arrTailChars cs ++
        ('\n' :: (sp2 ++ (']' :: rest))))) from by simp [arrTailChars]]
    rw [show fuel + needA (c :: cs) =
      ((fuel + needA cs) + 2 * c.length + 2) + 1 from by simp [needA]; ring]
    rw [parseArrTail_succ]
    rw [skipWs_stop _ (by decide)]
    dsimp only
    rw [if_neg (by decide), if_pos rfl]
    rw [parseVal_obj c _ _ (h c (by simp))]
    dsimp only
    rw [show (fuel + needA cs) + 2 * c.length + 2 =
      (fuel + 2 * c.length + 2) + needA cs from by ring]
    rw [ih]
    simp

theorem skipWs_convObj (conv : Conv) (X : List Char) :
    skipWs ('\n' :: (convObjChars conv ++ X)) =
      obrace :: ((match conv with
        | [] => '\n' :: (sp4 ++ [cbrace])
        | p :: ps => '\n' :: (pairChars p ++ (pairsTailChars ps ++
            ('\n' :: (sp4 ++ [cbrace]))))) ++ X) := by
  cases conv with
  | nil =>
    rw [show convObjChars [] ++ X = ' ' :: ' ' :: ' ' :: ' ' :: obrace ::
      (('\n' :: (sp4 ++ [cbrace])) ++ X) from by simp [convObjChars, sp4]]
    rw [skipWs_ws _ (by decide), skipWs_ws _ (by decide),
      skipWs_ws _ (by decide), skipWs_ws _ (by decide),
      skipWs_ws _ (by decide), skipWs_stop _ (by decide)]
  | cons p ps =>
    rw [show convObjChars (p :: ps) ++ X = ' ' :: ' ' :: ' ' :: ' ' ::
      obrace :: (('\n' :: (pairChars p ++ (pairsTailChars ps ++
        ('\n' :: (sp4 ++ [cbrace]))))) ++ X) from by simp [convObjChars, sp4]]
    rw [skipWs_ws _ (by decide), skipWs_ws _ (by decide),
      skipWs_ws _ (by decide), skipWs_ws _ (by decide),
      skipWs_ws _ (by decide), skipWs_stop _ (by decide)]

theorem parseVal_arr (convs : List Conv) (rest : List Char) (fuel : Nat)
    (h : ∀ conv ∈ convs, ∀ p ∈ conv, ∀ c ∈ p.1.data, plainChar c = true) :
    parseVal (fuel + needA convs + 1) (' ' :: (arrChars convs ++ rest)) =
      some (JVal.arr (convs.map convJ), rest) := by
  cases convs with
  | nil =>
    rw [show arrChars [] ++ rest =
      '[' :: '\n' :: ' ' :: ' ' :: ']' :: rest from by simp [arrChars, sp2]]
    rw [show fuel + needA [] + 1 = (fuel + 1) + 1 from by simp [needA]]
    rw [parseVal_succ]
    rw [skipWs_ws _ (by decide), skipWs_stop _ (by decide)]
    dsimp only
    rw [if_neg (by decide), if_pos rfl]
    rw [skipWs_ws _ (by decide), skipWs_ws _ (by decide),
      skipWs_ws _ (by decide), skipWs_stop _ (by decide)]
    dsimp only
    rw [if_pos rfl]
    rfl
  | cons c cs =>
    rw [show arrChars (c :: cs) ++ rest = '[' ::
      (('\n' :: (convObjChars c ++ (arrTailChars cs ++
        ('\n' :: (sp2 ++ (']' :: rest))))))) from by simp [arrChars]]
    rw [show fuel + needA (c :: cs) + 1 =
      ((fuel + needA cs) + 2 * c.length + 3) + 1 from by simp [needA]; ring]
    rw [parseVal_succ]
    rw [skipWs_ws _ (by decide), skipWs_stop _ (by decide)]
    dsimp only
    rw [if_neg (by decide), if_pos rfl]
    rw [skipWs_convObj]
    dsimp only
    rw [if_neg (by decide)]
    rw [show (fuel + needA cs) + 2 * c.length + 3 =
      ((fuel + needA cs) + 1) + 2 * c.length + 2 from by ring]
    rw [parseVal_obj c _ _ (h c (by simp))]
    dsimp only
    rw [show ((fuel + needA cs) + 1) + 2 * c.length + 2 =
      (fuel + 2 * c.length + 3) + needA cs from by ring]
    rw [parseArrTail_chars cs [convJ c] rest _
      (fun q hq => h q (by simp [hq]))]
    simp
/-- Reading back the whole serialized document. -/
theorem parseVal_doc (convs : List Conv) (fuel : Nat)
    (h : ∀ conv ∈ convs, ∀ p ∈ conv, ∀ c ∈ p.1.data, plainChar c = true) :
    parseVal (fuel + needA convs + 4) (docChars convs) =
      some (docJ convs, []) := by
  rw [show docChars convs = obrace :: '\n' :: ' ' :: ' ' :: '"' ::
    ("example_conversation".data ++ ('"' :: ':' :: ' ' ::
      (arrChars convs ++ ('\n' :: [cbrace])))) from by simp [docChars, sp2]]
  rw [show fuel + needA convs + 4 = ((fuel + needA convs) + 3) + 1 from by
    ring]
  rw [parseVal_succ]
  rw [skipWs_stop _ (by decide)]
  dsimp only
  rw [if_neg (by decide), if_neg (by decide), if_pos rfl]
  rw [skipWs_ws _ (by decide), skipWs_ws _ (by decide),
    skipWs_ws _ (by decide), skipWs_stop _ (by decide)]
  dsimp only
  rw [if_neg (by decide)]
  rw [show (fuel + needA convs) + 3 = ((fuel + needA convs) + 2) + 1 from by
    ring]
  rw [parsePair_succ]
  rw [skipWs_ws _ (by decide), skipWs_ws _ (by decide),
    skipWs_ws _ (by decide), skipWs_stop _ (by decide)]
  dsimp only
  rw [if_pos rfl]
  rw [parseStringBody_plain "example_conversation".data _ (by decide)]
  dsimp only
  rw [skipWs_stop _ (by decide)]
  show (match (match parseVal ((fuel + needA convs) + 2)
      (' ' :: (arrChars convs ++ ['\n', cbrace])) with
    | some (v, r3) =>
      some ((String.mk "example_conversation".data, v), r3)
    | none => none) with
   | some (kv, r) => parseObjTail ((fuel + needA convs) + 2 + 1) [kv] r
   | none => none) = some (docJ convs, [])
  rw [show (fuel + needA convs) + 2 = (fuel + 1) + needA convs + 1 from by
    ring]
  rw [parseVal_arr convs _ (fuel + 1) h]
  dsimp only
  rw [parseObjTail_succ]
  rw [skipWs_ws _ (by decide), skipWs_stop _ (by decide)]
  dsimp only
  rw [if_pos rfl]
  rfl

/-- C8: parsing the Duplicate-Key Serializer's output with the standard
JSON reader yields an object with the single key "example_conversation"
mapping to an array with one object per Conversation, whose entries, in
file order, reproduce the original (role, text) sequence exactly — repeated
keys included.  The roles hypothesis reflects the data model (roles are the
two fixed tokens); `fuel` is the reader's totality measure and any amount
at least `docFuel` suffices. -/
theorem serializer_round_trip (conversations : List Conv)
    (hroles : ∀ conv ∈ conversations, ∀ p ∈ conv,
      p.1 = userTok ∨ p.1 = charTok) :
    ∀ fuel, json_loads (docFuel conversations + fuel)
        (serialize_to_json_with_duplicate_keys conversations) =
      some (docJ conversations) := by
  intro fuel
  have hplain : ∀ conv ∈ conversations, ∀ p ∈ conv, ∀ c ∈ p.1.data,
      plainChar c = true := by
    intro conv hc p hp c hcp
    rcases hroles conv hc p hp with he | he
    · rw [he] at hcp
      exact (show ∀ c ∈ userTok.data, plainChar c = true from by decide) c hcp
    · rw [he] at hcp
      exact (show ∀ c ∈ charTok.data, plainChar c = true from by decide) c hcp
  unfold json_loads
  rw [serialize_data]
  rw [show docFuel conversations + fuel = fuel + needA conversations + 4
    from by unfold docFuel; ring]
  rw [parseVal_doc conversations fuel hplain]
  rfl

/-- C8 witness: a concrete two-pair conversation round-trips. -/
theorem serializer_round_trip_witness :
    json_loads (docFuel [[(userTok, "hi"), (charTok, "hey")]] + 0)
        (serialize_to_json_with_duplicate_keys
          [[(userTok, "hi"), (charTok, "hey")]]) =
      some (docJ [[(userTok, "hi"), (charTok, "hey")]]) :=
  serializer_round_trip [[(userTok, "hi"), (charTok, "hey")]] (by decide) 0

end WhatsappToJson
